import Mathlib

/-!
Shallow embedding of the month-to-date revenue forecasting engine of
`api_server.py` (functions `_safe_ratio`, `_normal_cdf`,
`_assumption_effective_multiplier`, `compute_dynamic_month_projection`,
`backtest_projection_mape_with_assumptions`, `growth_significance`),
together with theorems settling the specification claims.

Modelling conventions:
* Python floats are modelled as exact rationals `ℚ`; the transcendental
  pieces (`math.sqrt`, `math.erf`) live in derived `ℝ`-valued definitions.
* `datetime.date` is a `Date` record (proleptic Gregorian calendar);
  `date.toordinal()` is `Date.toOrdinal`, Python's `date.weekday()`
  (Monday = 0) is `Date.weekday`.  Date comparisons and `timedelta`
  arithmetic happen on ordinals, exactly as Python's total order on dates.
* An input row of the `daily_totals` dataframe is a `Row`: `date = none`
  models a value `pd.to_datetime(..., errors="coerce")` turns into `NaT`
  (then dropped by `dropna`), `total = none` models a non-numeric revenue
  entry (which makes pandas aggregations raise `TypeError`).
* A Python function that can raise is `Except PyErr`; returning Python
  `None` ("no result") is the `Option.none` inside `.ok`.
* `pandas.Series.mean()` of an empty series is `NaN`; this is the `none`
  of an `Option ℚ` and is propagated exactly where the source propagates
  the `NaN` (including CPython's `min`/`max` comparison order in the
  final clamp, where `min(c, nan) = c`).
-/

namespace Netfly

/-- True on Gregorian leap years, as `calendar.isleap`. -/
def isLeap (y : Int) : Bool :=
  (y % 4 == 0 && y % 100 != 0) || (y % 400 == 0)

/-- Length of month `m` of year `y`, as `calendar.monthrange(y, m)[1]`. -/
def daysInMonth (y : Int) (m : Nat) : Nat :=
  if m = 2 then (if isLeap y then 29 else 28)
  else if m = 4 ∨ m = 6 ∨ m = 9 ∨ m = 11 then 30
  else 31

/-- Days of year `y` strictly before the first day of month `m`. -/
def daysBeforeMonth (y : Int) : Nat → Nat
  | 0 => 0
  | m + 1 => daysBeforeMonth y m + (if m = 0 then 0 else daysInMonth y m)

/-- Days strictly before January 1 of year `y` counted from January 1 of
year 1 (rata die). -/
def daysBeforeYear (y : Int) : Int :=
  365 * (y - 1) + (y - 1) / 4 - (y - 1) / 100 + (y - 1) / 400

/-- A calendar date, as Python's `datetime.date`. -/
structure Date where
  year : Int
  month : Nat
  day : Nat
deriving DecidableEq

/-- Python's `date.toordinal()`: day number with `date(1, 1, 1)` at 1. -/
def Date.toOrdinal (d : Date) : Int :=
  daysBeforeYear d.year + daysBeforeMonth d.year d.month + d.day

/-- Python's `date.weekday()`: Monday is 0 and Sunday is 6. -/
def Date.weekday (d : Date) : Int :=
  (d.toOrdinal - 1) % 7

/-- The field constraints `datetime.date` enforces at construction. -/
def Date.Valid (d : Date) : Prop :=
  1 ≤ d.month ∧ d.month ≤ 12 ∧ 1 ≤ d.day ∧ d.day ≤ daysInMonth d.year d.month

instance (d : Date) : Decidable d.Valid := by
  unfold Date.Valid; infer_instance

/-- Successor date: `d + timedelta(days=1)` for a valid `d`. -/
def nextDate (d : Date) : Date :=
  if d.day < daysInMonth d.year d.month then ⟨d.year, d.month, d.day + 1⟩
  else if d.month < 12 then ⟨d.year, d.month + 1, 1⟩
  else ⟨d.year + 1, 1, 1⟩

/-- The `n` consecutive dates starting at `a`. -/
def dateList (a : Date) : Nat → List Date
  | 0 => []
  | n + 1 => a :: dateList (nextDate a) n

/-- Last day of the month preceding the month of `⟨y, m, _⟩`; equals
`date(y, m, 1) - timedelta(days=1)` for a valid month `m`. -/
def prevMonthEnd (y : Int) (m : Nat) : Date :=
  if m = 1 then ⟨y - 1, 12, 31⟩ else ⟨y, m - 1, daysInMonth y (m - 1)⟩

/-- One raw row of the `daily_totals` dataframe.  `date = none` models an
unparsable date (`NaT` after `pd.to_datetime(..., errors="coerce")`);
`total = none` models a non-numeric revenue entry, which makes every pandas
aggregation that touches it raise `TypeError`. -/
structure Row where
  date : Option Date
  total : Option ℚ
deriving DecidableEq

/-- The exceptions the engine can raise on its own:
`typeError` — a pandas aggregation over a non-numeric revenue value;
`zeroDivision` — the weighted-average division when the clamped signal
weights sum to zero; `reindexDup` — `reindex` on a current-month index
with duplicate dates. -/
inductive PyErr where
  | typeError
  | zeroDivision
  | reindexDup
deriving DecidableEq

/-- The ten business-assumption fields with their documented defaults
(the Python side is a dict read with `.get(key, default)`). -/
structure Assumptions where
  recent_weight : ℚ
  mom_weight : ℚ
  weekday_strength : ℚ
  manual_multiplier : ℚ
  promo_lift_pct : ℚ
  content_lift_pct : ℚ
  instock_rate : ℚ
  growth_floor : ℚ
  growth_ceiling : ℚ
  volatility_multiplier : ℚ
deriving DecidableEq

/-- The default assumptions: an empty assumptions dict on the Python side. -/
def Assumptions.default : Assumptions :=
  { recent_weight := 0.6
    mom_weight := 0.4
    weekday_strength := 1
    manual_multiplier := 1
    promo_lift_pct := 0
    content_lift_pct := 0
    instock_rate := 1
    growth_floor := 0.5
    growth_ceiling := 1.8
    volatility_multiplier := 1 }

/-- Source `_safe_ratio`: fall back to `dflt` exactly when the denominator
is zero, otherwise divide. -/
def safe_ratio (numerator denominator dflt : ℚ) : ℚ :=
  if denominator = 0 then dflt else numerator / denominator

/-- Source `_assumption_effective_multiplier`. -/
def assumption_effective_multiplier (a : Assumptions) : ℚ :=
  a.manual_multiplier * (1 + a.promo_lift_pct) * (1 + a.content_lift_pct) * a.instock_rate

/-- Insert `x` into `l` before the first element `y` with `¬ le x y`. -/
def insertLe (le : α → α → Bool) (x : α) : List α → List α
  | [] => [x]
  | y :: t => if le x y then x :: y :: t else y :: insertLe le x t

/-- Insertion sort; models `DataFrame.sort_values` (the engine's results
do not depend on the sort algorithm, only on the multiset of rows). -/
def sortLe (le : α → α → Bool) : List α → List α
  | [] => []
  | x :: t => insertLe le x (sortLe le t)

/-- Normalization: `pd.to_datetime(..., errors="coerce")` + `dropna(subset=["date"])` +
`sort_values("date")`: drop rows with unparsable dates, keep totals raw,
sort by date. -/
def parseSort (daily_totals : List Row) : List (Date × Option ℚ) :=
  sortLe (fun x y => decide (x.1.toOrdinal ≤ y.1.toOrdinal))
    (daily_totals.filterMap fun r => r.date.map fun d => (d, r.total))

/-- The dataframe slice with dates in `[lo, hi]` (ordinals). -/
def windowBetween (ts : List (Date × Option ℚ)) (lo hi : Int) : List (Date × Option ℚ) :=
  ts.filter fun r => decide (lo ≤ r.1.toOrdinal) && decide (r.1.toOrdinal ≤ hi)

/-- All revenue values of the slice are numeric (else any aggregation
raises `TypeError`). -/
def allNum (l : List (Date × Option ℚ)) : Bool :=
  l.all fun r => r.2.isSome

/-- The numeric revenue values of a slice. -/
def vals (l : List (Date × Option ℚ)) : List ℚ :=
  l.filterMap fun r => r.2

/-- Per-weekday mean of the baseline window: `groupby("weekday")["total"]
.mean()` as a lookup, `none` when the weekday has no observations. -/
def weekdayAvg (hr : List (Date × ℚ)) (wd : Int) : Option ℚ :=
  let g := hr.filter fun r => decide (r.1.weekday = wd)
  if g = [] then none else some ((g.map fun r => r.2).sum / (g.length : ℚ))

/-- Computes `baseline = overall_avg + weekday_strength * (weekday_avg - overall_avg)`
with the overall average as fallback for unobserved weekdays. -/
def weekdayBaseline (hr : List (Date × ℚ)) (overall ws : ℚ) (wd : Int) : ℚ :=
  overall + ws * ((weekdayAvg hr wd).getD overall - overall)

/-- Final clamp of the blended growth factor, with CPython's comparison
semantics: `max(floor, min(ceiling, g))`.  The `none` case is the `NaN`
that an empty trailing-14-day mean propagates into the blend; CPython's
`min(ceiling, nan)` keeps `ceiling` and `max(floor, ceiling)` follows. -/
def clampGF (floor ceiling : ℚ) : Option ℚ → ℚ
  | some g => max floor (min ceiling g)
  | none => max floor ceiling

/-- The trailing 14-day window `[as_of - 13, as_of]`. -/
def recent14Of (ts : List (Date × Option ℚ)) (as_of_date : Date) :
    List (Date × Option ℚ) :=
  windowBetween ts (as_of_date.toOrdinal - 13) as_of_date.toOrdinal

/-- The preceding 14-day window `[as_of - 27, as_of - 14]`. -/
def prior14Of (ts : List (Date × Option ℚ)) (as_of_date : Date) :
    List (Date × Option ℚ) :=
  windowBetween ts (as_of_date.toOrdinal - 27) (as_of_date.toOrdinal - 14)

/-- The previous-month comparison window: from the previous month start
through the same elapsed-day cutoff, clamped to that month's length. -/
def prevWindowOf (ts : List (Date × Option ℚ)) (as_of_date : Date) :
    List (Date × Option ℚ) :=
  let pme := prevMonthEnd as_of_date.year as_of_date.month
  let elapsed := as_of_date.toOrdinal
    - (⟨as_of_date.year, as_of_date.month, 1⟩ : Date).toOrdinal + 1
  let prev_asof_day := min elapsed (daysInMonth pme.year pme.month : Int)
  let pms : Date := ⟨pme.year, pme.month, 1⟩
  windowBetween ts pms.toOrdinal (pms.toOrdinal + prev_asof_day - 1)

/-- Computes `recent_growth = _safe_ratio(recent14.mean(), prior14.mean(), 1.0)` —
evaluated only when `prior14` is nonempty (else the signal defaults to 1);
`none` is the `NaN` of an empty `recent14` mean, which survives only when
the (nonempty) prior mean is nonzero, since `_safe_ratio` tests its
denominator first. -/
def recentGrowthOf (ts : List (Date × Option ℚ)) (as_of_date : Date) : Option ℚ :=
  let recent14 := recent14Of ts as_of_date
  let prior14 := prior14Of ts as_of_date
  if prior14 = [] then some 1
  else if (vals prior14).sum / (prior14.length : ℚ) = 0 then some 1
  else if recent14 = [] then none
  else some (((vals recent14).sum / (recent14.length : ℚ))
    / ((vals prior14).sum / (prior14.length : ℚ)))

/-- Computes `mom_growth = _safe_ratio(mtd_actual, prev_month_mtd.sum(), 1.0)` —
evaluated only when the previous-month window is nonempty. -/
def momGrowthOf (ts : List (Date × Option ℚ)) (as_of_date : Date)
    (mtd_actual : ℚ) : ℚ :=
  if prevWindowOf ts as_of_date = [] then 1
  else safe_ratio mtd_actual (vals (prevWindowOf ts as_of_date)).sum 1

/-- The qualifying growth signals with their clamped weights. -/
def factorsOf (ts : List (Date × Option ℚ)) (as_of_date : Date)
    (mtd_actual : ℚ) (a : Assumptions) : List (Option ℚ × ℚ) :=
  (if (prior14Of ts as_of_date).length ≥ 7 then
    [(recentGrowthOf ts as_of_date, max a.recent_weight 0)] else [])
    ++ (if prevWindowOf ts as_of_date ≠ [] then
      [(some (momGrowthOf ts as_of_date mtd_actual), max a.mom_weight 0)] else [])

/-- The growth-factor block of `compute_dynamic_month_projection`
(recent-trend ratio, month-over-month ratio, weighted blend, effective
multiplier, clamp).  Raises `typeError` when a mean/sum it evaluates hits
a non-numeric value and `zeroDivision` when the clamped weights of the
qualifying signals sum to zero. -/
def growthFactor (ts : List (Date × Option ℚ)) (as_of_date : Date)
    (mtd_actual : ℚ) (a : Assumptions) : Except PyErr ℚ :=
  if prior14Of ts as_of_date ≠ []
      ∧ ¬(allNum (recent14Of ts as_of_date) && allNum (prior14Of ts as_of_date)) then
    .error .typeError
  else if prevWindowOf ts as_of_date ≠ [] ∧ ¬allNum (prevWindowOf ts as_of_date) then
    .error .typeError
  else
    let factors := if factorsOf ts as_of_date mtd_actual a = [] then [((some 1 : Option ℚ), (1 : ℚ))]
      else factorsOf ts as_of_date mtd_actual a
    let sumw := (factors.map fun p => p.2).sum
    if sumw = 0 then .error .zeroDivision
    else
      .ok (clampGF a.growth_floor a.growth_ceiling
        (if factors.all fun p => p.1.isSome then
          some (((factors.map fun p => p.1.getD 0 * p.2).sum / sumw)
            * assumption_effective_multiplier a)
        else none))

/-- The result record of `compute_dynamic_month_projection`.  The
irrational pieces (`forecast_std`, `ci_low`, `ci_high`) are derived
`ℝ`-valued functions of the stored exact fields `residual_var`,
`n_future` and `volatility_multiplier`. -/
structure Projection where
  mtd_actual : ℚ
  projected_total : ℚ
  growth_factor : ℚ
  residual_var : ℚ
  n_future : Nat
  volatility_multiplier : ℚ
  chart : List (Date × ℚ × ℚ)
  elapsed_days : Int
  month_days : Nat
  month_start : Date
  month_end : Date
deriving DecidableEq

/-- Normalized series of the projector: parsable-date rows sorted and
restricted to dates on or before the as-of date. -/
def tsProj (daily_totals : List Row) (as_of_date : Date) : List (Date × Option ℚ) :=
  (parseSort daily_totals).filter fun r =>
    decide (r.1.toOrdinal ≤ as_of_date.toOrdinal)

/-- The month-to-date slice `[month_start, as_of_date]` of a series. -/
def currentWindow (ts : List (Date × Option ℚ)) (as_of_date : Date) :
    List (Date × Option ℚ) :=
  windowBetween ts (⟨as_of_date.year, as_of_date.month, 1⟩ : Date).toOrdinal
    as_of_date.toOrdinal

/-- The history strictly before the current month start. -/
def histOf (ts : List (Date × Option ℚ)) (as_of_date : Date) :
    List (Date × Option ℚ) :=
  ts.filter fun r =>
    decide (r.1.toOrdinal < (⟨as_of_date.year, as_of_date.month, 1⟩ : Date).toOrdinal)

/-- The baseline window: the trailing 84 days of history, or all history
when that window has fewer than 14 points. -/
def histRecent (ts : List (Date × Option ℚ)) (as_of_date : Date) :
    List (Date × Option ℚ) :=
  let hist := histOf ts as_of_date
  let histW := hist.filter fun r =>
    decide ((⟨as_of_date.year, as_of_date.month, 1⟩ : Date).toOrdinal - 84 ≤ r.1.toOrdinal)
  if histW.length < 14 then hist else histW

/-- The baseline window with its (numeric) totals extracted. -/
def hrOf (ts : List (Date × Option ℚ)) (as_of_date : Date) : List (Date × ℚ) :=
  (histRecent ts as_of_date).filterMap fun r => r.2.map fun q => (r.1, q)

/-- Computes `overall_avg`: mean revenue over the baseline window (0 if empty). -/
def overallAvg (hr : List (Date × ℚ)) : ℚ :=
  if hr = [] then 0 else (hr.map fun r => r.2).sum / (hr.length : ℚ)

/-- Predicted revenue of one future day:
`max(0, baseline(weekday) * growth_factor)`. -/
def predFn (hr : List (Date × ℚ)) (overall ws gf : ℚ) (d : Date) : ℚ :=
  max 0 (weekdayBaseline hr overall ws d.weekday * gf)

/-- The remaining calendar days of the as-of month
(`pd.date_range(as_of + 1, month_end)`). -/
def futureDatesOf (as_of_date : Date) : List Date :=
  (List.range (daysInMonth as_of_date.year as_of_date.month - as_of_date.day)).map
    fun i => ⟨as_of_date.year, as_of_date.month, as_of_date.day + 1 + i⟩

/-- Source `compute_dynamic_month_projection`: `.ok none` is Python's
`return None` (insufficient data), `.error` a raised exception. -/
def compute_dynamic_month_projection (daily_totals : List Row)
    (as_of_date : Date) (assumptions : Assumptions) : Except PyErr (Option Projection) :=
  if daily_totals = [] then .ok none else
  let ts := tsProj daily_totals as_of_date
  if ts = [] then .ok none else
  let month_start : Date := ⟨as_of_date.year, as_of_date.month, 1⟩
  let month_days := daysInMonth as_of_date.year as_of_date.month
  let month_end : Date := ⟨as_of_date.year, as_of_date.month, month_days⟩
  let current := currentWindow ts as_of_date
  if current = [] then .ok none else
  if ¬allNum current then .error .typeError else
  let mtd_actual := (vals current).sum
  let elapsed_days := as_of_date.toOrdinal - month_start.toOrdinal + 1
  let hist := histOf ts as_of_date
  if hist = [] then .ok none else
  let hist_recent := histRecent ts as_of_date
  if ¬allNum hist_recent then .error .typeError else
  let hr := hrOf ts as_of_date
  let overall_avg : ℚ := overallAvg hr
  match growthFactor ts as_of_date mtd_actual assumptions with
  | .error e => .error e
  | .ok growth_factor =>
    let futureDates := futureDatesOf as_of_date
    let pred := predFn hr overall_avg assumptions.weekday_strength growth_factor
    let remaining := (futureDates.map pred).sum
    let projected_total := mtd_actual + remaining
    let residual_var : ℚ :=
      if hist_recent.length > 1 then
        let res := hr.map fun r => r.2 - (weekdayAvg hr r.1.weekday).getD overall_avg
        let rbar := res.sum / (res.length : ℚ)
        (res.map fun x => (x - rbar) ^ 2).sum / ((res.length : ℚ) - 1)
      else 0
    if ¬(current.map fun r => r.1.toOrdinal).Nodup then .error .reindexDup else
    let monthDates := (List.range month_days).map fun i =>
      (⟨as_of_date.year, as_of_date.month, 1 + i⟩ : Date)
    let actualAt := fun (d : Date) =>
      (vals (current.filter fun r => decide (r.1.toOrdinal = d.toOrdinal))).sum
    let forecastAt := fun (d : Date) =>
      if as_of_date.toOrdinal < d.toOrdinal then pred d else 0
    .ok (some
      { mtd_actual := mtd_actual
        projected_total := projected_total
        growth_factor := growth_factor
        residual_var := residual_var
        n_future := futureDates.length
        volatility_multiplier := assumptions.volatility_multiplier
        chart := monthDates.map fun d => (d, actualAt d, forecastAt d)
        elapsed_days := elapsed_days
        month_days := month_days
        month_start := month_start
        month_end := month_end })

/-- One detail row of the backtest (`{month, predicted, actual, ape}`). -/
structure BtRow where
  month : Int × Nat
  predicted : ℚ
  actual : ℚ
  ape : ℚ
deriving DecidableEq

/-- The backtest result (`{mape, count, details}`). -/
structure Backtest where
  mape : ℚ
  count : Nat
  details : List BtRow
deriving DecidableEq

/-- Ordering of `(year, month)` pairs, matching the sort of the Python
month periods. -/
def monthLe (x y : Int × Nat) : Bool :=
  decide (x.1 < y.1) || (decide (x.1 = y.1) && decide (x.2 ≤ y.2))

/-- Computes `sorted(ts["date"].dt.to_period("M").unique())`. -/
def btMonths (ts : List (Date × Option ℚ)) : List (Int × Nat) :=
  sortLe monthLe ((ts.map fun r => (r.1.year, r.1.month)).dedup)

/-- The per-month loop of the backtester. -/
def btLoop (ts : List (Date × Option ℚ)) (as_of_day : Int) (cms : Date)
    (a : Assumptions) : List (Int × Nat) → Except PyErr (List BtRow)
  | [] => .ok []
  | (y, m) :: rest =>
    let month_start : Date := ⟨y, m, 1⟩
    let dim := daysInMonth y m
    let cutoff_day := min as_of_day (dim : Int)
    let as_of : Date := ⟨y, m, cutoff_day.toNat⟩
    if cms.toOrdinal ≤ as_of.toOrdinal then btLoop ts as_of_day cms a rest
    else
      let model_input := (ts.filter fun r => decide (r.1.toOrdinal ≤ as_of.toOrdinal)).map
        fun r => ({ date := some r.1, total := r.2 } : Row)
      match compute_dynamic_month_projection model_input as_of a with
      | .error e => .error e
      | .ok none => btLoop ts as_of_day cms a rest
      | .ok (some pred) =>
        let actualW := windowBetween ts month_start.toOrdinal
          (month_start.toOrdinal + (dim : Int) - 1)
        if ¬allNum actualW then .error .typeError
        else
          let actual := (vals actualW).sum
          if actual ≤ 0 then btLoop ts as_of_day cms a rest
          else
            match btLoop ts as_of_day cms a rest with
            | .error e => .error e
            | .ok rows => .ok
                (⟨(y, m), pred.projected_total, actual,
                  |pred.projected_total - actual| / actual⟩ :: rows)

/-- Source `backtest_projection_mape_with_assumptions`. -/
def backtest_projection_mape_with_assumptions (daily_totals : List Row)
    (as_of_day : Int) (current_month_start : Date) (assumptions : Assumptions) :
    Except PyErr (Option Backtest) :=
  if daily_totals = [] then .ok none else
  let ts := (parseSort daily_totals).filter fun r =>
    decide (r.1.toOrdinal < current_month_start.toOrdinal)
  if ts = [] then .ok none else
  match btLoop ts as_of_day current_month_start assumptions (btMonths ts) with
  | .error e => .error e
  | .ok rows =>
    if rows = [] then .ok none
    else .ok (some
      { mape := (rows.map fun r => r.ape).sum / (rows.length : ℚ)
        count := rows.length
        details := sortLe (fun x y => monthLe x.month y.month) rows })

/-- The exact-valued statistics of the significance test result; the
`z`/`p_value`/`confidence` numbers are derived `ℝ`-valued functions. -/
structure Significance where
  mean_current : ℚ
  mean_baseline : ℚ
  n_current : Nat
  n_baseline : Nat
  se_sq : ℚ
deriving DecidableEq

/-- Sample variance with `ddof = 1` (the square of pandas `.std()`). -/
def sampleVar (l : List ℚ) : ℚ :=
  let xbar := l.sum / (l.length : ℚ)
  (l.map fun x => (x - xbar) ^ 2).sum / ((l.length : ℚ) - 1)

/-- Current sample of the significance test: daily totals from month
start through the as-of date. -/
def sigCurrent (daily_totals : List Row) (as_of_date : Date) :
    List (Date × Option ℚ) :=
  windowBetween (parseSort daily_totals)
    (⟨as_of_date.year, as_of_date.month, 1⟩ : Date).toOrdinal as_of_date.toOrdinal

/-- Baseline sample of the significance test: the 84 days preceding the
month start. -/
def sigBaseline (daily_totals : List Row) (as_of_date : Date) :
    List (Date × Option ℚ) :=
  (parseSort daily_totals).filter fun r =>
    decide ((⟨as_of_date.year, as_of_date.month, 1⟩ : Date).toOrdinal - 84 ≤ r.1.toOrdinal)
      && decide (r.1.toOrdinal < (⟨as_of_date.year, as_of_date.month, 1⟩ : Date).toOrdinal)

/-- Source `growth_significance`.  The Python guard `se == 0` on
`se = sqrt(var1/n1 + var2/n2)` is equivalent to `se_sq = 0` because the
radicand is a sum of squares over positive counts, hence nonnegative. -/
def growth_significance (daily_totals : List Row) (as_of_date : Date)
    (assumptions : Assumptions) : Except PyErr (Option Significance) :=
  if daily_totals = [] then .ok none else
  let current := sigCurrent daily_totals as_of_date
  let baseline := sigBaseline daily_totals as_of_date
  if current.length < 2 ∨ baseline.length < 2 then .ok none else
  if ¬(allNum current && allNum baseline) then .error .typeError else
  let mean1 := ((vals current).sum / (current.length : ℚ)) * assumption_effective_multiplier assumptions
  let mean2 := (vals baseline).sum / (baseline.length : ℚ)
  let se_sq := sampleVar (vals current) / (current.length : ℚ)
    + sampleVar (vals baseline) / (baseline.length : ℚ)
  if se_sq = 0 then .ok none else
  .ok (some
    { mean_current := mean1
      mean_baseline := mean2
      n_current := current.length
      n_baseline := baseline.length
      se_sq := se_sq })

/-- The Gauss error function, the exact value of `math.erf`. -/
noncomputable def erf (x : ℝ) : ℝ :=
  (2 / Real.sqrt Real.pi) * ∫ t in (0:ℝ)..x, Real.exp (-(t ^ 2))

/-- Source `_normal_cdf`: `0.5 * (1 + erf(x / sqrt 2))`. -/
noncomputable def normal_cdf (x : ℝ) : ℝ :=
  0.5 * (1 + erf (x / Real.sqrt 2))

/-- The z-statistic `(mean_current_adj - mean_baseline) / se`. -/
noncomputable def Significance.z (s : Significance) : ℝ :=
  ((s.mean_current : ℝ) - (s.mean_baseline : ℝ)) / Real.sqrt (s.se_sq : ℝ)

/-- The two-sided p-value `2 * (1 - Φ(|z|))`. -/
noncomputable def Significance.p_value (s : Significance) : ℝ :=
  2 * (1 - normal_cdf |s.z|)

/-- Computes `confidence = 1 - p_value`. -/
noncomputable def Significance.confidence (s : Significance) : ℝ :=
  1 - s.p_value

/-- Computes `forecast_std = sqrt(max(remaining_days, 1)) * residual_std *
max(volatility_multiplier, 0.1)` with `residual_std = sqrt(residual_var)`. -/
noncomputable def Projection.forecast_std (p : Projection) : ℝ :=
  Real.sqrt ((max p.n_future 1 : ℕ) : ℝ) * Real.sqrt (p.residual_var : ℝ)
    * ((max p.volatility_multiplier 0.1 : ℚ) : ℝ)

/-- Computes `ci_low = max(0, projected_total - 1.96 * forecast_std)`. -/
noncomputable def Projection.ci_low (p : Projection) : ℝ :=
  max 0 ((p.projected_total : ℝ) - 1.96 * p.forecast_std)

/-- Computes `ci_high = projected_total + 1.96 * forecast_std`. -/
noncomputable def Projection.ci_high (p : Projection) : ℝ :=
  (p.projected_total : ℝ) + 1.96 * p.forecast_std

/-- Shorthand for a fully parsable, numeric input row. -/
def mkRow (y : Int) (m d : Nat) (v : ℚ) : Row :=
  { date := some ⟨y, m, d⟩, total := some v }

/-- A series with one numeric record per day for `n` consecutive days
starting at `start`, all equal to `v` (a flat history). -/
def flatRows (start : Date) (n : Nat) (v : ℚ) : List Row :=
  (dateList start n).map fun d => { date := some d, total := some v }

/-- Extract the projection from a successful result (used to name the
result of a concrete run in closed statements). -/
def okSomeD (e : Except PyErr (Option α)) (dflt : α) : α :=
  match e with
  | .ok (some x) => x
  | _ => dflt

/-- Whether a call produced a result (neither `None` nor an exception). -/
def isOkSome (e : Except PyErr (Option α)) : Bool :=
  match e with
  | .ok (some _) => true
  | _ => false

/-- Placeholder projection for `okSomeD`. -/
def defaultProjection : Projection :=
  { mtd_actual := 0, projected_total := 0, growth_factor := 0, residual_var := 0
    n_future := 0, volatility_multiplier := 0, chart := [], elapsed_days := 0
    month_days := 0, month_start := ⟨1, 1, 1⟩, month_end := ⟨1, 1, 1⟩ }

/-- Placeholder significance record for `okSomeD`. -/
def defaultSignificance : Significance :=
  { mean_current := 0, mean_baseline := 0, n_current := 0, n_baseline := 0, se_sq := 0 }

/-- A two-row series (one history row, one current-month row), enough for
the projector to return a result at as-of 2024-02-10. -/
def twoPointSeries : List Row :=
  [mkRow 2024 1 20 10, mkRow 2024 2 5 10]

/-- Assumptions with an empty clamp interval (floor above ceiling). -/
def emptyClampAssumptions : Assumptions :=
  { Assumptions.default with growth_floor := 2, growth_ceiling := 1 }

/-- The projection the engine returns on `twoPointSeries` under
`emptyClampAssumptions`. -/
def emptyClampProjection : Projection :=
  okSomeD (compute_dynamic_month_projection twoPointSeries ⟨2024, 2, 10⟩
    emptyClampAssumptions) defaultProjection

/-- The projection the engine returns on `twoPointSeries` under the
default assumptions. -/
def twoPointProjection : Projection :=
  okSomeD (compute_dynamic_month_projection twoPointSeries ⟨2024, 2, 10⟩
    Assumptions.default) defaultProjection

/-- Assumptions whose two signal weights are both zero. -/
def zeroWeightAssumptions : Assumptions :=
  { Assumptions.default with recent_weight := 0, mom_weight := 0 }

/-- A well-formed series for which the month-over-month signal qualifies
at as-of 2024-02-10 (one previous-month-window row, one current row). -/
def momOnlySeries : List Row :=
  [mkRow 2024 1 5 100, mkRow 2024 2 3 50]

/-- The series `twoPointSeries` extended by a valid-date row whose revenue value is
non-numeric, landing inside the current month-to-date window. -/
def nonNumericSeries : List Row :=
  twoPointSeries ++ [{ date := some ⟨2024, 2, 6⟩, total := none }]

/-- Backtest counterexample series: one record in each of Dec 2023,
Jan 2024 and the first half of Feb 2024. -/
def btCexSeries : List Row :=
  [mkRow 2023 12 31 100, mkRow 2024 1 5 100, mkRow 2024 2 10 100]

/-- The backtest result on `btCexSeries` for `as_of_day = 20` from the
mid-month `current_month_start` 2024-02-15. -/
def btCexResult : Backtest :=
  okSomeD (backtest_projection_mape_with_assumptions btCexSeries 20 ⟨2024, 2, 15⟩
    Assumptions.default) { mape := 0, count := 0, details := [] }

/-- A series whose two significance samples have two points each and a
nonzero combined standard error, at as-of 2024-02-10. -/
def sigSeries : List Row :=
  [mkRow 2024 1 10 100, mkRow 2024 1 11 200, mkRow 2024 2 1 100, mkRow 2024 2 2 300]

/-- The significance-test statistics on `sigSeries`. -/
def sigResult : Significance :=
  okSomeD (growth_significance sigSeries ⟨2024, 2, 10⟩ Assumptions.default)
    defaultSignificance

/-- Flat series for the corrected-C3 counterexample: every day of
2023-01-01 … 2023-03-29 at 100; at as-of 2023-03-29 the month elapsed 29
days but February 2023 has only 28. -/
def flatCexSeries : List Row :=
  flatRows ⟨2023, 1, 1⟩ 88 100

/-- The projection on `flatCexSeries` at 2023-03-29 under the default
assumptions. -/
def flatCexProjection : Projection :=
  okSomeD (compute_dynamic_month_projection flatCexSeries ⟨2023, 3, 29⟩
    Assumptions.default) defaultProjection

/-- The projection on the flat series 2024-01-01 … 2024-02-14 at 100. -/
def flatWitnessProjection : Projection :=
  okSomeD (compute_dynamic_month_projection (flatRows ⟨2024, 1, 1⟩ 45 100)
    ⟨2024, 2, 14⟩ Assumptions.default) defaultProjection

theorem daysBeforeYear_succ (y : Int) :
    daysBeforeYear (y + 1) = daysBeforeYear y + 365 + (if isLeap y then 1 else 0) := by
  simp only [daysBeforeYear, isLeap, Bool.or_eq_true, Bool.and_eq_true, beq_iff_eq,
    bne_iff_ne, ne_eq, decide_eq_true_eq]
  split
  · omega
  · omega

theorem daysInMonth_pos (y : Int) (m : Nat) : 1 ≤ daysInMonth y m := by
  unfold daysInMonth
  split
  · split <;> omega
  · split <;> omega

theorem daysInMonth_le (y : Int) (m : Nat) : daysInMonth y m ≤ 31 := by
  unfold daysInMonth
  split
  · split <;> omega
  · split <;> omega

theorem daysBeforeMonth_succ (y : Int) (m : Nat) (h1 : 1 ≤ m) :
    daysBeforeMonth y (m + 1) = daysBeforeMonth y m + daysInMonth y m := by
  cases m with
  | zero => omega
  | succ k => simp [daysBeforeMonth]

theorem daysBeforeMonth_eval (y : Int) :
    daysBeforeMonth y 12 = 334 + (if isLeap y then 1 else 0) := by
  have h2 := daysBeforeMonth_succ y 1 (by omega)
  have h3 := daysBeforeMonth_succ y 2 (by omega)
  have h4 := daysBeforeMonth_succ y 3 (by omega)
  have h5 := daysBeforeMonth_succ y 4 (by omega)
  have h6 := daysBeforeMonth_succ y 5 (by omega)
  have h7 := daysBeforeMonth_succ y 6 (by omega)
  have h8 := daysBeforeMonth_succ y 7 (by omega)
  have h9 := daysBeforeMonth_succ y 8 (by omega)
  have h10 := daysBeforeMonth_succ y 9 (by omega)
  have h11 := daysBeforeMonth_succ y 10 (by omega)
  have h12 := daysBeforeMonth_succ y 11 (by omega)
  have h1 : daysBeforeMonth y 1 = 0 := rfl
  norm_num [daysInMonth] at h2 h3 h4 h5 h6 h7 h8 h9 h10 h11 h12
  split_ifs at * <;> omega

theorem toOrdinal_nextDate {d : Date} (h : d.Valid) :
    (nextDate d).toOrdinal = d.toOrdinal + 1 := by
  obtain ⟨y, m, day⟩ := d
  simp only [Date.Valid] at h
  obtain ⟨hm1, hm2, hd1, hd2⟩ := h
  simp only [nextDate]
  split
  · next h2 =>
    simp only [Date.toOrdinal]
    push_cast
    ring
  · split
    · next h2 h3 =>
      have hde : day = daysInMonth y m := by omega
      have hstep := daysBeforeMonth_succ y m hm1
      simp only [Date.toOrdinal]
      rw [hstep, hde]
      push_cast
      ring
    · next h2 h3 =>
      have hm : m = 12 := by omega
      subst hm
      have hde : day = daysInMonth y 12 := by omega
      subst hde
      have h365 := daysBeforeYear_succ y
      have heval := daysBeforeMonth_eval y
      have hone : daysBeforeMonth (y + 1) 1 = 0 := rfl
      have hdim : daysInMonth y 12 = 31 := rfl
      simp only [Date.toOrdinal]
      rw [hone, hdim, heval]
      split_ifs at h365 ⊢ <;> push_cast <;> omega

theorem valid_nextDate {d : Date} (h : d.Valid) : (nextDate d).Valid := by
  obtain ⟨y, m, day⟩ := d
  simp only [Date.Valid] at h
  obtain ⟨hm1, hm2, hd1, hd2⟩ := h
  simp only [nextDate]
  split
  · next h2 =>
    simp only [Date.Valid]
    exact ⟨hm1, hm2, by omega, by omega⟩
  · split
    · next h2 h3 =>
      simp only [Date.Valid]
      exact ⟨by omega, by omega, by omega, daysInMonth_pos y (m + 1)⟩
    · next h2 h3 =>
      simp only [Date.Valid]
      exact ⟨by omega, by omega, by omega, daysInMonth_pos (y + 1) 1⟩

attribute [local semireducible] Rat.add Rat.sub Rat.mul Rat.inv Rat.ofScientific

theorem mem_insertLe {le : α → α → Bool} {x a : α} {l : List α} :
    a ∈ insertLe le x l ↔ a = x ∨ a ∈ l := by
  induction l with
  | nil => simp [insertLe]
  | cons y t ih =>
    simp only [insertLe]
    split
    · simp
    · simp [ih]
      tauto

theorem mem_sortLe {le : α → α → Bool} {a : α} {l : List α} :
    a ∈ sortLe le l ↔ a ∈ l := by
  induction l with
  | nil => simp [sortLe]
  | cons y t ih => simp [sortLe, mem_insertLe, ih]

theorem insertLe_perm (le : α → α → Bool) (x : α) (l : List α) :
    List.Perm (insertLe le x l) (x :: l) := by
  induction l with
  | nil => simp [insertLe]
  | cons y t ih =>
    simp only [insertLe]
    split
    · exact List.Perm.refl _
    · exact (List.Perm.cons y ih).trans (List.Perm.swap x y t)

theorem sortLe_perm (le : α → α → Bool) (l : List α) : List.Perm (sortLe le l) l := by
  induction l with
  | nil => exact List.Perm.refl _
  | cons y t ih => exact (insertLe_perm le y (sortLe le t)).trans (List.Perm.cons y ih)

theorem parseSort_filter_isSome (s : List Row) :
    parseSort (s.filter fun r => r.date.isSome) = parseSort s := by
  unfold parseSort
  congr 1
  induction s with
  | nil => rfl
  | cons r t ih => cases hd : r.date <;> simp [List.filter_cons, hd, ih]

/-- C5 (amended): `_safe_ratio` falls back to the default exactly when
the denominator is exactly zero; any nonzero denominator — however small
— performs the division (which, over exact numbers, is defined and
finite, never a fault). -/
theorem safe_ratio_exact_zero_fallback (numerator denominator dflt : ℚ) :
    (denominator = 0 → safe_ratio numerator denominator dflt = dflt) ∧
    (denominator ≠ 0 → safe_ratio numerator denominator dflt = numerator / denominator) := by
  constructor
  · intro h
    simp [safe_ratio, h]
  · intro h
    simp [safe_ratio, h]

theorem safe_ratio_exact_zero_fallback_witness :
    safe_ratio 3 0 1 = 1 ∧ safe_ratio 3 2 1 = 3 / 2 :=
  ⟨(safe_ratio_exact_zero_fallback 3 0 1).1 rfl,
   (safe_ratio_exact_zero_fallback 3 2 1).2 (by norm_num)⟩

/-- C5 counterexample: a positive denominator strictly below `1e-9` does
not yield the fallback constant `1.0` — the claimed near-zero threshold
does not exist in the code (`_safe_ratio` tests `denominator == 0`). -/
theorem safe_ratio_near_zero_cex :
    (0 : ℚ) < 1 / 10 ^ 10 ∧ (1 : ℚ) / 10 ^ 10 < 1 / 10 ^ 9 ∧
    safe_ratio 1 (1 / 10 ^ 10) 1 = 10 ^ 10 ∧ (10 ^ 10 : ℚ) ≠ 1 := by
  refine ⟨by norm_num, by norm_num, ?_, by norm_num⟩
  rw [safe_ratio, if_neg (by norm_num)]
  norm_num

/-- C9: with `recent_weight = 0` and `mom_weight = 0` and a qualifying
growth signal, the weighted-average denominator `sum(w for _, w in
factors)` is `0.0` and the projector raises `ZeroDivisionError`, although
the input series is well-formed (every date parsable, every total
numeric).  This contradicts the claim that the engine never raises on
well-formed input. -/
theorem zero_weights_raises :
    compute_dynamic_month_projection momOnlySeries ⟨2024, 2, 10⟩ zeroWeightAssumptions
      = .error .zeroDivision ∧
    momOnlySeries.all (fun r => r.date.isSome && r.total.isSome) = true := by
  constructor
  · rfl
  · rfl

/-- C8 (amended): normalization drops exactly the rows whose date fails
to parse — the projector's result is unchanged by removing them up
front.  (Rows with non-numeric revenue are NOT dropped; see the
counterexample.) -/
theorem unparsable_dates_dropped (daily_totals : List Row) (as_of_date : Date)
    (assumptions : Assumptions) :
    compute_dynamic_month_projection daily_totals as_of_date assumptions
      = compute_dynamic_month_projection (daily_totals.filter fun r => r.date.isSome)
          as_of_date assumptions := by
  have hps := parseSort_filter_isSome daily_totals
  by_cases h1 : daily_totals = []
  · subst h1
    rfl
  · by_cases h2 : (daily_totals.filter fun r => r.date.isSome) = []
    · have hps0 : parseSort daily_totals = [] := by
        rw [← hps, h2]
        rfl
      have hts : tsProj daily_totals as_of_date = [] := by
        simp [tsProj, hps0]
      simp [compute_dynamic_month_projection, h1, h2, hts]
    · simp only [compute_dynamic_month_projection, tsProj, hps, h1, h2, if_false]

/-- C8 counterexample: a valid-date row with a non-numeric revenue value
inside the current month is not dropped — the whole computation fails
with a `TypeError` at the first aggregation, whereas the same series
without that row produces a projection. -/
theorem nonnumeric_total_not_dropped_cex :
    compute_dynamic_month_projection nonNumericSeries ⟨2024, 2, 10⟩ Assumptions.default
      = .error .typeError ∧
    compute_dynamic_month_projection twoPointSeries ⟨2024, 2, 10⟩ Assumptions.default
      = .ok (some twoPointProjection) := by
  constructor
  · rfl
  · rfl

/-- C4: insufficient data is signalled by Python `None` (here `.ok none`),
never by an exception: the projector returns it on an empty input series,
an empty normalized series, an empty month-to-date slice, and (with the
month-to-date totals numeric, so that the sum preceding the history check
does not raise) an empty pre-month history; the backtester and the
significance tester return it on an empty series; the significance tester
returns it when either sample has fewer than 2 points, and when the
combined standard error is zero. -/
theorem insufficient_data_returns_none :
    (∀ a asm, compute_dynamic_month_projection [] a asm = .ok none) ∧
    (∀ s a asm, tsProj s a = [] →
      compute_dynamic_month_projection s a asm = .ok none) ∧
    (∀ s a asm, currentWindow (tsProj s a) a = [] →
      compute_dynamic_month_projection s a asm = .ok none) ∧
    (∀ s a asm, allNum (currentWindow (tsProj s a) a) = true →
      histOf (tsProj s a) a = [] →
      compute_dynamic_month_projection s a asm = .ok none) ∧
    (∀ d cms asm, backtest_projection_mape_with_assumptions [] d cms asm = .ok none) ∧
    (∀ a asm, growth_significance [] a asm = .ok none) ∧
    (∀ s a asm, (sigCurrent s a).length < 2 ∨ (sigBaseline s a).length < 2 →
      growth_significance s a asm = .ok none) ∧
    (∀ s a asm, allNum (sigCurrent s a) = true → allNum (sigBaseline s a) = true →
      sampleVar (vals (sigCurrent s a)) / ((sigCurrent s a).length : ℚ)
        + sampleVar (vals (sigBaseline s a)) / ((sigBaseline s a).length : ℚ) = 0 →
      growth_significance s a asm = .ok none) := by
  refine ⟨fun a asm => rfl, ?_, ?_, ?_, fun d cms asm => rfl, fun a asm => rfl, ?_, ?_⟩
  · intro s a asm h
    simp [compute_dynamic_month_projection, h]
  · intro s a asm h
    simp [compute_dynamic_month_projection, h]
  · intro s a asm h1 h2
    simp [compute_dynamic_month_projection, h1, h2]
  · intro s a asm h
    simp only [growth_significance]
    rcases h with h | h
    · simp [h]
    · simp [h]
  · intro s a asm h1 h2 h3
    simp [growth_significance, h1, h2, h3]

set_option maxRecDepth 8000 in
theorem insufficient_data_returns_none_witness :
    compute_dynamic_month_projection [] ⟨2024, 2, 10⟩ Assumptions.default = .ok none ∧
    compute_dynamic_month_projection [{ date := none, total := some 5 }] ⟨2024, 2, 10⟩
      Assumptions.default = .ok none ∧
    compute_dynamic_month_projection [mkRow 2024 1 5 7] ⟨2024, 2, 10⟩
      Assumptions.default = .ok none ∧
    compute_dynamic_month_projection [mkRow 2024 2 5 7] ⟨2024, 2, 10⟩
      Assumptions.default = .ok none ∧
    backtest_projection_mape_with_assumptions [] 10 ⟨2024, 2, 1⟩
      Assumptions.default = .ok none ∧
    growth_significance [] ⟨2024, 2, 10⟩ Assumptions.default = .ok none ∧
    growth_significance [mkRow 2024 2 5 7] ⟨2024, 2, 10⟩
      Assumptions.default = .ok none ∧
    growth_significance (flatRows ⟨2024, 1, 20⟩ 26 100) ⟨2024, 2, 14⟩
      Assumptions.default = .ok none := by
  refine ⟨insufficient_data_returns_none.1 _ _,
    insufficient_data_returns_none.2.1 _ _ _ (by decide),
    insufficient_data_returns_none.2.2.1 _ _ _ (by decide),
    insufficient_data_returns_none.2.2.2.1 _ _ _ (by decide) (by decide),
    insufficient_data_returns_none.2.2.2.2.1 _ _ _,
    insufficient_data_returns_none.2.2.2.2.2.1 _ _,
    insufficient_data_returns_none.2.2.2.2.2.2.1 _ _ _ (Or.inl (by decide)),
    insufficient_data_returns_none.2.2.2.2.2.2.2 _ _ _ (by decide) (by decide) (by decide)⟩

theorem factorsOf_recent_weight_clamp (ts : List (Date × Option ℚ)) (a : Date)
    (mtd : ℚ) (asm : Assumptions) (w : ℚ) (hw : w ≤ 0) :
    factorsOf ts a mtd { asm with recent_weight := w }
      = factorsOf ts a mtd { asm with recent_weight := 0 } := by
  simp only [factorsOf]
  rw [show max w 0 = 0 from max_eq_right hw, max_self]

theorem factorsOf_mom_weight_clamp (ts : List (Date × Option ℚ)) (a : Date)
    (mtd : ℚ) (asm : Assumptions) (w : ℚ) (hw : w ≤ 0) :
    factorsOf ts a mtd { asm with mom_weight := w }
      = factorsOf ts a mtd { asm with mom_weight := 0 } := by
  simp only [factorsOf]
  rw [show max w 0 = 0 from max_eq_right hw, max_self]

theorem growthFactor_recent_weight_clamp (ts : List (Date × Option ℚ)) (a : Date)
    (mtd : ℚ) (asm : Assumptions) (w : ℚ) (hw : w ≤ 0) :
    growthFactor ts a mtd { asm with recent_weight := w }
      = growthFactor ts a mtd { asm with recent_weight := 0 } := by
  simp only [growthFactor, assumption_effective_multiplier]
  rw [factorsOf_recent_weight_clamp ts a mtd asm w hw]

theorem growthFactor_mom_weight_clamp (ts : List (Date × Option ℚ)) (a : Date)
    (mtd : ℚ) (asm : Assumptions) (w : ℚ) (hw : w ≤ 0) :
    growthFactor ts a mtd { asm with mom_weight := w }
      = growthFactor ts a mtd { asm with mom_weight := 0 } := by
  simp only [growthFactor, assumption_effective_multiplier]
  rw [factorsOf_mom_weight_clamp ts a mtd asm w hw]

/-- C10: each signal weight enters the engine only through `max(·, 0)`, so a
negative `recent_weight` or `mom_weight` produces exactly the same result
as a zero weight — a negative weight can never flip the sign of a
signal's contribution. -/
theorem negative_weights_act_as_zero (s : List Row) (a : Date) (asm : Assumptions)
    (w : ℚ) (hw : w ≤ 0) :
    compute_dynamic_month_projection s a { asm with recent_weight := w }
        = compute_dynamic_month_projection s a { asm with recent_weight := 0 } ∧
    compute_dynamic_month_projection s a { asm with mom_weight := w }
        = compute_dynamic_month_projection s a { asm with mom_weight := 0 } := by
  constructor
  · simp only [compute_dynamic_month_projection]
    rw [growthFactor_recent_weight_clamp _ _ _ _ _ hw]
  · simp only [compute_dynamic_month_projection]
    rw [growthFactor_mom_weight_clamp _ _ _ _ _ hw]

theorem negative_weights_act_as_zero_witness :
    compute_dynamic_month_projection twoPointSeries ⟨2024, 2, 10⟩
        { Assumptions.default with recent_weight := -1 }
      = compute_dynamic_month_projection twoPointSeries ⟨2024, 2, 10⟩
        { Assumptions.default with recent_weight := 0 } ∧
    compute_dynamic_month_projection twoPointSeries ⟨2024, 2, 10⟩
        { Assumptions.default with mom_weight := -1 }
      = compute_dynamic_month_projection twoPointSeries ⟨2024, 2, 10⟩
        { Assumptions.default with mom_weight := 0 } :=
  negative_weights_act_as_zero twoPointSeries ⟨2024, 2, 10⟩ Assumptions.default (-1)
    (by norm_num)

theorem growthFactor_ok {ts : List (Date × Option ℚ)} {a : Date} {mtd gf : ℚ}
    {asm : Assumptions} (h : growthFactor ts a mtd asm = .ok gf) :
    ∃ o, gf = clampGF asm.growth_floor asm.growth_ceiling o := by
  simp only [growthFactor] at h
  split_ifs at h <;>
    first
      | exact Except.noConfusion h
      | (injection h with h; exact ⟨_, h.symm⟩)

/-- Every successful projection stores the growth factor returned by the
growth-factor block, the month-to-date sum as `mtd_actual`, and
`mtd_actual + Σ max(0, baseline*growth_factor)` as `projected_total`. -/
theorem compute_ok_some {s : List Row} {a : Date} {asm : Assumptions} {r : Projection}
    (h : compute_dynamic_month_projection s a asm = .ok (some r)) :
    ∃ gf, growthFactor (tsProj s a) a (vals (currentWindow (tsProj s a) a)).sum asm = .ok gf
      ∧ r.growth_factor = gf
      ∧ r.mtd_actual = (vals (currentWindow (tsProj s a) a)).sum
      ∧ r.projected_total = r.mtd_actual
          + ((futureDatesOf a).map (predFn (hrOf (tsProj s a) a)
              (overallAvg (hrOf (tsProj s a) a)) asm.weekday_strength r.growth_factor)).sum := by
  simp only [compute_dynamic_month_projection] at h
  split_ifs at h <;>
    try first
      | exact Except.noConfusion h
      | exact Option.noConfusion (Except.ok.inj h)
  all_goals
    split at h
    · exact Except.noConfusion h
    · next gf hg =>
      first
        | exact Except.noConfusion h
        | (injection h with h
           injection h with h
           subst h
           exact ⟨gf, hg, rfl, rfl, rfl⟩)

theorem clampGF_bounds {fl ce : ℚ} (h : fl ≤ ce) (o : Option ℚ) :
    fl ≤ clampGF fl ce o ∧ clampGF fl ce o ≤ ce := by
  cases o with
  | none =>
    simp only [clampGF]
    exact ⟨le_max_left _ _, max_le h (le_refl ce)⟩
  | some g =>
    simp only [clampGF]
    exact ⟨le_max_left _ _, max_le h (min_le_left _ _)⟩

/-- C1 (amended): whenever the projector returns a result and
`growth_floor ≤ growth_ceiling`, the returned `growth_factor` lies in
`[growth_floor, growth_ceiling]`; with `growth_floor = growth_ceiling = 1`
it therefore equals `1` regardless of the signal values.  (When
`growth_floor > growth_ceiling` the clamp `max(floor, min(ceiling, g))`
returns `growth_floor`, which lies outside the then-empty interval — see
the counterexample.) -/
theorem growth_factor_within_bounds (s : List Row) (a : Date) (asm : Assumptions)
    (r : Projection)
    (h : compute_dynamic_month_projection s a asm = .ok (some r))
    (hfc : asm.growth_floor ≤ asm.growth_ceiling) :
    asm.growth_floor ≤ r.growth_factor ∧ r.growth_factor ≤ asm.growth_ceiling := by
  obtain ⟨gf, hg, hgf, -, -⟩ := compute_ok_some h
  obtain ⟨o, ho⟩ := growthFactor_ok hg
  rw [hgf, ho]
  exact clampGF_bounds hfc o

theorem growth_factor_within_bounds_witness :
    Assumptions.default.growth_floor ≤ twoPointProjection.growth_factor ∧
    twoPointProjection.growth_factor ≤ Assumptions.default.growth_ceiling :=
  growth_factor_within_bounds twoPointSeries ⟨2024, 2, 10⟩ Assumptions.default
    twoPointProjection (by rfl) (by norm_num [Assumptions.default])

/-- C1 counterexample: with `growth_floor = 2 > growth_ceiling = 1` the
projector returns a result whose `growth_factor` is `2`, which does not
lie in `[growth_floor, growth_ceiling] = [2, 1]` (that interval is
empty), refuting the claim for arbitrary assumptions. -/
theorem growth_factor_outside_empty_clamp_cex :
    compute_dynamic_month_projection twoPointSeries ⟨2024, 2, 10⟩ emptyClampAssumptions
      = .ok (some emptyClampProjection) ∧
    emptyClampProjection.growth_factor = 2 ∧
    emptyClampAssumptions.growth_ceiling = 1 ∧
    ¬(emptyClampProjection.growth_factor ≤ emptyClampAssumptions.growth_ceiling) := by
  refine ⟨rfl, by decide, rfl, by decide⟩

theorem parseSort_mem {s : List Row} {p : Date × Option ℚ} (h : p ∈ parseSort s) :
    ∃ row ∈ s, row.date = some p.1 ∧ row.total = p.2 := by
  unfold parseSort at h
  rw [mem_sortLe] at h
  obtain ⟨row, hrow, hmap⟩ := List.mem_filterMap.mp h
  cases hd : row.date with
  | none => rw [hd] at hmap; exact Option.noConfusion hmap
  | some d =>
    rw [hd] at hmap
    have hmap2 : (d, row.total) = p := by injection hmap
    exact ⟨row, hrow, by rw [hd, ← hmap2], by rw [← hmap2]⟩

theorem vals_sum_nonneg {l : List (Date × Option ℚ)}
    (h : ∀ p ∈ l, ∀ q, p.2 = some q → 0 ≤ q) : 0 ≤ (vals l).sum := by
  unfold vals
  induction l with
  | nil => simp
  | cons x t ih =>
    rw [List.filterMap_cons]
    cases hx : x.2 with
    | none => exact ih fun p hp => h p (List.mem_cons_of_mem x hp)
    | some q =>
      rw [List.sum_cons]
      have hq := h x (List.mem_cons_self x t) q hx
      have ht := ih fun p hp => h p (List.mem_cons_of_mem x hp)
      linarith

theorem predSum_nonneg (hr : List (Date × ℚ)) (overall ws gf : ℚ) (ds : List Date) :
    0 ≤ (ds.map (predFn hr overall ws gf)).sum := by
  apply List.sum_nonneg
  intro x hx
  obtain ⟨d, -, rfl⟩ := List.mem_map.mp hx
  exact le_max_left 0 _

theorem forecast_std_nonneg (p : Projection) : 0 ≤ p.forecast_std := by
  refine mul_nonneg (mul_nonneg (Real.sqrt_nonneg _) (Real.sqrt_nonneg _)) ?_
  have : (0 : ℚ) ≤ max p.volatility_multiplier 0.1 :=
    le_trans (by norm_num) (le_max_right _ _)
  exact_mod_cast this

/-- C2: on a series with non-negative totals, every successful projection
satisfies `ci_low = max(0, projected_total - 1.96*forecast_std)`,
`ci_high = projected_total + 1.96*forecast_std`, `0 ≤ ci_low ≤
projected_total ≤ ci_high` (over the exact reals, all these quantities
exist — are finite and non-`NaN` — by construction). -/
theorem ci_band_brackets_projection (s : List Row) (a : Date) (asm : Assumptions)
    (r : Projection)
    (hnn : ∀ row ∈ s, ∀ q : ℚ, row.total = some q → 0 ≤ q)
    (h : compute_dynamic_month_projection s a asm = .ok (some r)) :
    r.ci_low = max 0 ((r.projected_total : ℝ) - 1.96 * r.forecast_std) ∧
    r.ci_high = (r.projected_total : ℝ) + 1.96 * r.forecast_std ∧
    0 ≤ r.ci_low ∧ r.ci_low ≤ (r.projected_total : ℝ) ∧
    (r.projected_total : ℝ) ≤ r.ci_high := by
  have hs0 : (0 : ℝ) ≤ 1.96 * r.forecast_std :=
    mul_nonneg (by norm_num) (forecast_std_nonneg r)
  have hproj : 0 ≤ r.projected_total := by
    obtain ⟨gf, hg, hgf, hmtd, hpt⟩ := compute_ok_some h
    rw [hpt, hmtd]
    have h1 : 0 ≤ (vals (currentWindow (tsProj s a) a)).sum := by
      apply vals_sum_nonneg
      intro p hp q hq
      have hp1 : p ∈ parseSort s := by
        simp only [currentWindow, windowBetween, tsProj, List.mem_filter] at hp
        exact hp.1.1
      obtain ⟨row, hrow, hd, ht⟩ := parseSort_mem hp1
      exact hnn row hrow q (by rw [ht]; exact hq)
    have h2 := predSum_nonneg (hrOf (tsProj s a) a) (overallAvg (hrOf (tsProj s a) a))
      asm.weekday_strength r.growth_factor (futureDatesOf a)
    linarith
  have hprojR : (0 : ℝ) ≤ (r.projected_total : ℝ) := by exact_mod_cast hproj
  refine ⟨rfl, rfl, le_max_left _ _, ?_, ?_⟩
  · exact max_le hprojR (by linarith)
  · exact le_add_of_nonneg_right hs0

theorem ci_band_brackets_projection_witness :
    0 ≤ twoPointProjection.ci_low ∧
    twoPointProjection.ci_low ≤ (twoPointProjection.projected_total : ℝ) ∧
    (twoPointProjection.projected_total : ℝ) ≤ twoPointProjection.ci_high := by
  have hnn : ∀ row ∈ twoPointSeries, ∀ q : ℚ, row.total = some q → 0 ≤ q := by
    intro row hrow q hq
    simp only [twoPointSeries, mkRow, List.mem_cons, List.not_mem_nil, or_false] at hrow
    rcases hrow with rfl | rfl <;>
      · injection hq with hq
        rw [← hq]
        norm_num
  have h := ci_band_brackets_projection twoPointSeries ⟨2024, 2, 10⟩ Assumptions.default
    twoPointProjection hnn (by rfl)
  exact ⟨h.2.2.1, h.2.2.2.1, h.2.2.2.2⟩

theorem btLoop_rows {ts : List (Date × Option ℚ)} {aday : Int} {cms : Date}
    {asm : Assumptions} {months : List (Int × Nat)} {rows : List BtRow}
    (h : btLoop ts aday cms asm months = .ok rows) :
    ∀ row ∈ rows, 0 < row.actual ∧ row.ape = |row.predicted - row.actual| / row.actual := by
  induction months generalizing rows with
  | nil =>
    injection h with h
    subst h
    intro row hr
    exact absurd hr (List.not_mem_nil row)
  | cons ym rest ih =>
    obtain ⟨y, m⟩ := ym
    simp only [btLoop] at h
    split at h
    · exact ih h
    · split at h
      · exact Except.noConfusion h
      · exact ih h
      · split at h
        · exact Except.noConfusion h
        · split at h
          · exact ih h
          · next hle =>
            split at h
            · exact Except.noConfusion h
            · next rows' hrec =>
              injection h with h
              subst h
              intro row hrow
              rcases List.mem_cons.mp hrow with rfl | hmem
              · exact ⟨lt_of_not_le hle, rfl⟩
              · exact ih hrec row hmem

/-- C7 (amended): whenever the backtester returns a result, it has one
detail row per qualifying month, `count` equals the number of rows,
`mape` is the arithmetic mean of the rows' absolute percentage errors
(hence `mape ≥ 0`), and every row has a positive actual total with
`ape = |predicted - actual| / actual`; a run with zero qualifying months
returns the no-result value.  A month qualifies when its cutoff date
`month_start + (min(as_of_day, days_in_month) - 1)` falls strictly
before `current_month_start` (a restriction beyond the claim — see the
counterexample), its projector replay returns a result, and its actual
total is positive. -/
theorem backtest_mape_spec (s : List Row) (aday : Int) (cms : Date)
    (asm : Assumptions) (r : Backtest)
    (h : backtest_projection_mape_with_assumptions s aday cms asm = .ok (some r)) :
    r.details ≠ [] ∧ r.count = r.details.length ∧
    r.mape = ((r.details.map fun t => t.ape).sum) / (r.count : ℚ) ∧
    0 ≤ r.mape ∧
    ∀ row ∈ r.details, 0 < row.actual ∧ row.ape = |row.predicted - row.actual| / row.actual := by
  simp only [backtest_projection_mape_with_assumptions] at h
  split_ifs at h <;> try exact Option.noConfusion (Except.ok.inj h)
  all_goals
  split at h
  · exact Except.noConfusion h
  · next rows hrec =>
    split_ifs at h with hnil
    · exact Option.noConfusion (Except.ok.inj h)
    · injection h with h
      injection h with h
      subst h
      have hperm : List.Perm (sortLe (fun x y => monthLe x.month y.month) rows) rows :=
        sortLe_perm _ rows
      have hrows := btLoop_rows hrec
      have hmem : ∀ row ∈ sortLe (fun x y => monthLe x.month y.month) rows,
          0 < row.actual ∧ row.ape = |row.predicted - row.actual| / row.actual := by
        intro row hrow
        exact hrows row (mem_sortLe.mp hrow)
      refine ⟨?_, ?_, ?_, ?_, hmem⟩
      · intro hcon
        exact hnil (List.Perm.eq_nil (hcon ▸ hperm.symm))
      · exact (hperm.length_eq).symm
      · have hmap : List.Perm ((sortLe (fun x y => monthLe x.month y.month) rows).map
            fun t => t.ape) (rows.map fun t => t.ape) := hperm.map _
        simp only [hmap.sum_eq, hperm.length_eq]
      · apply div_nonneg
        · apply List.sum_nonneg
          intro x hx
          obtain ⟨row, hrow, rfl⟩ := List.mem_map.mp hx
          obtain ⟨hpos, hape⟩ := hrows row hrow
          rw [hape]
          exact div_nonneg (abs_nonneg _) hpos.le
        · exact_mod_cast Nat.zero_le _

set_option maxRecDepth 40000 in
theorem backtest_mape_spec_witness :
    okSomeD (backtest_projection_mape_with_assumptions (flatRows ⟨2023, 1, 1⟩ 90 100) 15
        ⟨2023, 3, 1⟩ Assumptions.default) { mape := 1, count := 0, details := [] }
        = { mape := 0, count := 1,
            details := [{ month := (2023, 2), predicted := 2800, actual := 2800, ape := 0 }] } ∧
    0 ≤ (okSomeD (backtest_projection_mape_with_assumptions (flatRows ⟨2023, 1, 1⟩ 90 100) 15
        ⟨2023, 3, 1⟩ Assumptions.default) { mape := 1, count := 0, details := [] }).mape := by
  constructor
  · rfl
  · exact (backtest_mape_spec (flatRows ⟨2023, 1, 1⟩ 90 100) 15 ⟨2023, 3, 1⟩
      Assumptions.default _ (by rfl)).2.2.2.1

/-- C7 counterexample: with the mid-month `current_month_start`
2024-02-15 and `as_of_day = 20`, the backtester emits a single detail
row (January 2024) although February 2024 also satisfies the claim's
stated conditions — its projector replay on the data visible up to the
cutoff 2024-02-20 returns a result and its actual total 100 is positive
— because the code additionally skips any month whose cutoff date falls
on or after `current_month_start`. -/
theorem backtest_midmonth_skip_cex :
    backtest_projection_mape_with_assumptions btCexSeries 20 ⟨2024, 2, 15⟩
        Assumptions.default = .ok (some btCexResult) ∧
    btCexResult.count = 1 ∧
    btCexResult.details.map (fun t => t.month) = [((2024 : Int), (1 : Nat))] ∧
    isOkSome (compute_dynamic_month_projection btCexSeries ⟨2024, 2, 20⟩
      Assumptions.default) = true ∧
    (vals (windowBetween ((parseSort btCexSeries).filter fun r =>
        decide (r.1.toOrdinal < (⟨2024, 2, 15⟩ : Date).toOrdinal))
      (Date.toOrdinal ⟨2024, 2, 1⟩) (Date.toOrdinal ⟨2024, 2, 29⟩))).sum = 100 ∧
    (0 : ℚ) < 100 := by
  refine ⟨rfl, rfl, rfl, rfl, by decide, by norm_num⟩

theorem erf_nonneg {x : ℝ} (hx : 0 ≤ x) : 0 ≤ erf x := by
  unfold erf
  apply mul_nonneg
  · exact div_nonneg (by norm_num) (Real.sqrt_nonneg _)
  · exact intervalIntegral.integral_nonneg_of_forall hx fun u => (Real.exp_pos _).le

theorem gauss_integral_le {x : ℝ} (hx : 0 ≤ x) :
    (∫ t in (0:ℝ)..x, Real.exp (-(t ^ 2))) ≤ Real.sqrt Real.pi / 2 := by
  have hInt : MeasureTheory.IntegrableOn (fun t : ℝ => Real.exp (-(t ^ 2))) (Set.Ioi 0) := by
    have h := (integrable_exp_neg_mul_sq (b := 1) one_pos).integrableOn (s := Set.Ioi 0)
    simpa using h
  have h1 : (∫ t in (0:ℝ)..x, Real.exp (-(t ^ 2)))
      = ∫ t in Set.Ioc 0 x, Real.exp (-(t ^ 2)) := intervalIntegral.integral_of_le hx
  have h2 : (∫ t in Set.Ioc 0 x, Real.exp (-(t ^ 2)))
      ≤ ∫ t in Set.Ioi 0, Real.exp (-(t ^ 2)) := by
    apply MeasureTheory.setIntegral_mono_set hInt
    · exact MeasureTheory.ae_of_all _ fun t => (Real.exp_pos _).le
    · exact (Set.Ioc_subset_Ioi_self).eventuallyLE
  have h3 : (∫ t in Set.Ioi 0, Real.exp (-(t ^ 2))) = Real.sqrt Real.pi / 2 := by
    have h := integral_gaussian_Ioi 1
    simpa using h
  rw [h1, ← h3]
  exact h2

theorem erf_le_one {x : ℝ} (hx : 0 ≤ x) : erf x ≤ 1 := by
  unfold erf
  have hπ : 0 < Real.sqrt Real.pi := Real.sqrt_pos.mpr Real.pi_pos
  have h2 : (0 : ℝ) ≤ 2 / Real.sqrt Real.pi := by positivity
  calc (2 / Real.sqrt Real.pi) * ∫ t in (0:ℝ)..x, Real.exp (-(t ^ 2))
      ≤ (2 / Real.sqrt Real.pi) * (Real.sqrt Real.pi / 2) :=
        mul_le_mul_of_nonneg_left (gauss_integral_le hx) h2
    _ = 1 := by field_simp

theorem normal_cdf_bounds {x : ℝ} (hx : 0 ≤ x) :
    1 / 2 ≤ normal_cdf x ∧ normal_cdf x ≤ 1 := by
  unfold normal_cdf
  have hx2 : 0 ≤ x / Real.sqrt 2 := div_nonneg hx (Real.sqrt_nonneg _)
  have h1 := erf_nonneg hx2
  have h2 := erf_le_one hx2
  constructor
  · nlinarith
  · nlinarith

/-- C6: whenever the significance tester returns a result,
`z = (mean_current_adj - mean_baseline) / sqrt(var1/n1 + var2/n2)` with
`mean_current_adj` the current-sample mean times the effective
multiplier, `p_value = 2*(1 - Φ(|z|))`, `confidence = 1 - p_value`, and
both `p_value` and `confidence` lie in `[0, 1]`. -/
theorem significance_spec (s : List Row) (a : Date) (asm : Assumptions)
    (r : Significance)
    (h : growth_significance s a asm = .ok (some r)) :
    r.z = ((r.mean_current : ℝ) - (r.mean_baseline : ℝ)) / Real.sqrt (r.se_sq : ℝ) ∧
    r.p_value = 2 * (1 - normal_cdf |r.z|) ∧
    r.confidence = 1 - r.p_value ∧
    0 ≤ r.p_value ∧ r.p_value ≤ 1 ∧ 0 ≤ r.confidence ∧ r.confidence ≤ 1 ∧
    r.mean_current = ((vals (sigCurrent s a)).sum / ((sigCurrent s a).length : ℚ))
      * assumption_effective_multiplier asm ∧
    r.mean_baseline = (vals (sigBaseline s a)).sum / ((sigBaseline s a).length : ℚ) ∧
    r.se_sq = sampleVar (vals (sigCurrent s a)) / ((sigCurrent s a).length : ℚ)
      + sampleVar (vals (sigBaseline s a)) / ((sigBaseline s a).length : ℚ) := by
  have hb := normal_cdf_bounds (abs_nonneg r.z)
  have hp1 : 0 ≤ r.p_value := by
    simp only [Significance.p_value]
    linarith [hb.2]
  have hp2 : r.p_value ≤ 1 := by
    simp only [Significance.p_value]
    linarith [hb.1]
  have hc1 : 0 ≤ r.confidence := by
    simp only [Significance.confidence]
    linarith
  have hc2 : r.confidence ≤ 1 := by
    simp only [Significance.confidence]
    linarith
  simp only [growth_significance] at h
  split_ifs at h <;> try exact Option.noConfusion (Except.ok.inj h)
  injection h with h
  injection h with h
  subst h
  exact ⟨rfl, rfl, rfl, hp1, hp2, hc1, hc2, rfl, rfl, rfl⟩

theorem significance_spec_witness :
    0 ≤ sigResult.p_value ∧ sigResult.p_value ≤ 1 ∧
    sigResult.confidence = 1 - sigResult.p_value ∧
    sigResult.mean_current = 200 ∧ sigResult.mean_baseline = 150 := by
  have h := significance_spec sigSeries ⟨2024, 2, 10⟩ Assumptions.default sigResult (by rfl)
  exact ⟨h.2.2.2.1, h.2.2.2.2.1, h.2.2.1, by decide, by decide⟩

theorem daysInMonth_ge (y : Int) (m : Nat) : 28 ≤ daysInMonth y m := by
  unfold daysInMonth
  split
  · split <;> omega
  · split <;> omega

theorem toOrdinal_day (y : Int) (m d : Nat) :
    (⟨y, m, d⟩ : Date).toOrdinal = (⟨y, m, 1⟩ : Date).toOrdinal + d - 1 := by
  simp only [Date.toOrdinal]
  push_cast
  ring

/-- The ordinal of the previous month's first day is the current month's
first-day ordinal minus the previous month's length. -/
theorem prevMonthStart_toOrdinal {a : Date} (hav : a.Valid) :
    (⟨(prevMonthEnd a.year a.month).year, (prevMonthEnd a.year a.month).month, 1⟩
        : Date).toOrdinal
      = (⟨a.year, a.month, 1⟩ : Date).toOrdinal
        - daysInMonth (prevMonthEnd a.year a.month).year (prevMonthEnd a.year a.month).month := by
  obtain ⟨hm1, hm2, -, -⟩ := hav
  unfold prevMonthEnd
  split
  · next hm =>
    rw [hm]
    have h365 := daysBeforeYear_succ (a.year - 1)
    rw [show a.year - 1 + 1 = a.year by ring] at h365
    have heval := daysBeforeMonth_eval (a.year - 1)
    have hdim : daysInMonth (a.year - 1) 12 = 31 := rfl
    simp only [Date.toOrdinal, hdim, heval]
    have h2 : daysBeforeMonth a.year 1 = 0 := rfl
    rw [h2]
    split_ifs at h365 ⊢ <;> push_cast <;> omega
  · next hm =>
    have hstep := daysBeforeMonth_succ a.year (a.month - 1) (by omega)
    rw [Nat.sub_add_cancel hm1] at hstep
    simp only [Date.toOrdinal, hstep]
    push_cast
    ring

theorem dateList_ordinals {start : Date} (hs : start.Valid) (n : ℕ) :
    (dateList start n).map Date.toOrdinal
      = (List.range n).map fun i : ℕ => start.toOrdinal + (i : ℤ) := by
  induction n generalizing start with
  | zero => rfl
  | succ k ih =>
    rw [show dateList start (k + 1) = start :: dateList (nextDate start) k from rfl]
    rw [List.map_cons, ih (valid_nextDate hs)]
    simp only [toOrdinal_nextDate hs]
    rw [List.range_succ_eq_map, List.map_cons, List.map_map]
    refine List.cons_eq_cons.mpr ⟨by push_cast; ring, ?_⟩
    apply List.map_congr_left
    intro i hi
    simp only [Function.comp_apply]
    push_cast
    ring

theorem dateList_mem_ordinal {start : Date} (hs : start.Valid) (n : ℕ) {o : ℤ}
    (h1 : start.toOrdinal ≤ o) (h2 : o < start.toOrdinal + n) :
    ∃ d ∈ dateList start n, d.toOrdinal = o := by
  have hmem : o ∈ (dateList start n).map Date.toOrdinal := by
    rw [dateList_ordinals hs n]
    rw [List.mem_map]
    refine ⟨(o - start.toOrdinal).toNat, ?_, by omega⟩
    rw [List.mem_range]
    omega
  obtain ⟨d, hd, hod⟩ := List.mem_map.mp hmem
  exact ⟨d, hd, hod⟩

theorem dateList_ordinal_bounds {start : Date} (hs : start.Valid) {n : ℕ} {d : Date}
    (hd : d ∈ dateList start n) :
    start.toOrdinal ≤ d.toOrdinal ∧ d.toOrdinal < start.toOrdinal + n := by
  have hmem : d.toOrdinal ∈ (dateList start n).map Date.toOrdinal :=
    List.mem_map_of_mem Date.toOrdinal hd
  rw [dateList_ordinals hs n] at hmem
  obtain ⟨i, hi, ho⟩ := List.mem_map.mp hmem
  rw [List.mem_range] at hi
  omega

theorem count_range (s0 lo hi : ℤ) (n : ℕ) :
    ((((List.range n).filter fun i : ℕ =>
        decide (lo ≤ s0 + (i : ℤ)) && decide (s0 + (i : ℤ) ≤ hi)).length : ℤ))
      = max 0 (min hi (s0 + n - 1) - max lo s0 + 1) := by
  induction n with
  | zero =>
    simp only [List.range_zero, List.filter_nil, List.length_nil]
    omega
  | succ k ih =>
    rw [List.range_succ, List.filter_append, List.length_append]
    simp only [List.filter_cons, List.filter_nil]
    split_ifs with hk
    · simp only [List.length_cons, List.length_nil]
      simp only [Bool.and_eq_true, decide_eq_true_eq] at hk
      push_cast
      omega
    · simp only [List.length_nil]
      simp only [Bool.and_eq_true, decide_eq_true_eq, not_and_or, not_le] at hk
      push_cast
      omega

theorem flatRows_eq_map (start : Date) (n : ℕ) (v : ℚ) :
    flatRows start n v
      = (dateList start n).map fun d => ({ date := some d, total := some v } : Row) := rfl

theorem mem_parseSort_flat {start : Date} {n : ℕ} {v : ℚ} {p : Date × Option ℚ}
    (hp : p ∈ parseSort (flatRows start n v)) :
    p.2 = some v ∧ p.1 ∈ dateList start n := by
  obtain ⟨row, hrow, hdate, htot⟩ := parseSort_mem hp
  rw [flatRows_eq_map] at hrow
  obtain ⟨d, hd, rfl⟩ := List.mem_map.mp hrow
  refine ⟨htot.symm, ?_⟩
  have : some d = some p.1 := hdate
  injection this with this
  rw [← this]
  exact hd

theorem parseSort_flat_perm (start : Date) (n : ℕ) (v : ℚ) :
    List.Perm (parseSort (flatRows start n v))
      ((dateList start n).map fun d => (d, some v)) := by
  unfold parseSort
  have heq : (flatRows start n v).filterMap (fun r => r.date.map fun d => (d, r.total))
      = (dateList start n).map fun d => (d, some v) := by
    rw [flatRows_eq_map]
    induction dateList start n with
    | nil => rfl
    | cons d t ih =>
      simp only [List.map_cons, List.filterMap_cons, Option.map_some]
      simp [ih]
  rw [heq]
  exact sortLe_perm _ _

theorem sum_map_const {α : Type} (ds : List α) (v : ℚ) :
    (ds.map fun _ => v).sum = v * (ds.length : ℚ) := by
  induction ds with
  | nil => simp
  | cons d t ih =>
    rw [List.map_cons, List.sum_cons, ih, List.length_cons]
    push_cast
    ring

theorem windowBetween_map_flat (ds : List Date) (v : ℚ) (lo hi : ℤ) :
    windowBetween (ds.map fun d => (d, some v)) lo hi
      = (ds.filter fun d =>
          decide (lo ≤ d.toOrdinal) && decide (d.toOrdinal ≤ hi)).map
            fun d => (d, some v) := by
  unfold windowBetween
  rw [List.filter_map]
  rfl

theorem vals_map_flat (ds : List Date) (v : ℚ) :
    vals (ds.map fun d => (d, some v)) = ds.map fun _ => v := by
  unfold vals
  induction ds with
  | nil => rfl
  | cons d t ih => simp only [List.map_cons, List.filterMap_cons, ih]

theorem filter_dateList_length {start : Date} (hs : start.Valid) (n : ℕ) (lo hi : ℤ) :
    ((((dateList start n).filter fun d =>
        decide (lo ≤ d.toOrdinal) && decide (d.toOrdinal ≤ hi)).length : ℤ))
      = max 0 (min hi (start.toOrdinal + n - 1) - max lo start.toOrdinal + 1) := by
  have h1 : ((dateList start n).filter fun d =>
        decide (lo ≤ d.toOrdinal) && decide (d.toOrdinal ≤ hi)).length
      = (((dateList start n).map Date.toOrdinal).filter fun o =>
          decide (lo ≤ o) && decide (o ≤ hi)).length := by
    rw [List.filter_map, List.length_map]
    rfl
  rw [h1, dateList_ordinals hs n, List.filter_map, List.length_map]
  exact count_range start.toOrdinal lo hi n

/-- Length and revenue sum of any ordinal window over the flat series. -/
theorem flat_window (start : Date) (hs : start.Valid) (n : ℕ) (v : ℚ) (lo hi : ℤ) :
    (((windowBetween (parseSort (flatRows start n v)) lo hi).length : ℤ)
        = max 0 (min hi (start.toOrdinal + n - 1) - max lo start.toOrdinal + 1)) ∧
    (vals (windowBetween (parseSort (flatRows start n v)) lo hi)).sum
      = v * ((windowBetween (parseSort (flatRows start n v)) lo hi).length : ℚ) := by
  have hperm : List.Perm (windowBetween (parseSort (flatRows start n v)) lo hi)
      (windowBetween ((dateList start n).map fun d => (d, some v)) lo hi) := by
    unfold windowBetween
    exact (parseSort_flat_perm start n v).filter _
  have hlen := hperm.length_eq
  have hvals : List.Perm (vals (windowBetween (parseSort (flatRows start n v)) lo hi))
      (vals (windowBetween ((dateList start n).map fun d => (d, some v)) lo hi)) := by
    unfold vals
    exact hperm.filterMap _
  constructor
  · rw [hlen, windowBetween_map_flat, List.length_map]
    exact filter_dateList_length hs n lo hi
  · rw [hvals.sum_eq, hlen, windowBetween_map_flat, vals_map_flat, sum_map_const,
      List.length_map]

theorem flat_window_mem {start : Date} {n : ℕ} {v : ℚ} {lo hi : ℤ}
    {p : Date × Option ℚ}
    (hp : p ∈ windowBetween (parseSort (flatRows start n v)) lo hi) :
    p.2 = some v := by
  unfold windowBetween at hp
  exact (mem_parseSort_flat (List.mem_filter.mp hp).1).1

theorem allNum_of_all_some {l : List (Date × Option ℚ)} {v : ℚ}
    (h : ∀ p ∈ l, p.2 = some v) : allNum l = true := by
  unfold allNum
  rw [List.all_eq_true]
  intro p hp
  rw [h p hp]
  rfl

/-- Every record of the flat series survives the projector's as-of filter
when the series ends at the as-of date. -/
theorem tsProj_flat {start a : Date} {n : ℕ} {v : ℚ} (hs : start.Valid)
    (hend : start.toOrdinal + n - 1 = a.toOrdinal) :
    tsProj (flatRows start n v) a = parseSort (flatRows start n v) := by
  unfold tsProj
  apply List.filter_eq_self.mpr
  intro p hp
  obtain ⟨-, hd⟩ := mem_parseSort_flat hp
  have hb := dateList_ordinal_bounds hs hd
  simp only [decide_eq_true_eq]
  omega

theorem const_list_mean {l : List (Date × ℚ)} {v : ℚ}
    (h : ∀ p ∈ l, p.2 = v) (hne : l ≠ []) :
    (l.map fun r => r.2).sum / (l.length : ℚ) = v := by
  have hmap : (l.map fun r => r.2) = l.map fun _ => v :=
    List.map_congr_left fun p hp => h p hp
  have hlen : (0 : ℚ) < (l.length : ℚ) := by
    have := List.length_pos.mpr hne
    exact_mod_cast this
  rw [hmap, sum_map_const, mul_div_assoc, div_self (ne_of_gt hlen), mul_one]

theorem weekdayBaseline_flat {hr : List (Date × ℚ)} {v overall ws : ℚ}
    (hvals : ∀ p ∈ hr, p.2 = v) (hov : overall = v) (wd : Int) :
    weekdayBaseline hr overall ws wd = v := by
  simp only [weekdayBaseline, weekdayAvg]
  split_ifs with hG
  · simp only [Option.getD_none, hov]
    ring
  · have hmean : ((hr.filter fun r => decide (r.1.weekday = wd)).map fun r => r.2).sum
        / (((hr.filter fun r => decide (r.1.weekday = wd)).length : ℚ)) = v := by
      apply const_list_mean
      · intro p hp
        exact hvals p (List.mem_filter.mp hp).1
      · exact hG
    simp only [Option.getD_some, hmean, hov]
    ring

theorem mem_histRecent_sub {ts : List (Date × Option ℚ)} {a : Date}
    {p : Date × Option ℚ} (hp : p ∈ histRecent ts a) : p ∈ ts := by
  simp only [histRecent] at hp
  split at hp
  · exact (List.mem_filter.mp hp).1
  · exact (List.mem_filter.mp (List.mem_filter.mp hp).1).1

theorem histRecent_ne_nil {ts : List (Date × Option ℚ)} {a : Date}
    (h : histOf ts a ≠ []) : histRecent ts a ≠ [] := by
  simp only [histRecent]
  split
  · exact h
  · next hW =>
    intro hcon
    rw [hcon] at hW
    simp at hW

theorem hrOf_mem {ts : List (Date × Option ℚ)} {a : Date} {d : Date} {q : ℚ}
    (h : (d, q) ∈ hrOf ts a) :
    ∃ r ∈ histRecent ts a, r.1 = d ∧ r.2 = some q := by
  unfold hrOf at h
  obtain ⟨r, hr, heq⟩ := List.mem_filterMap.mp h
  cases h2 : r.2 with
  | none =>
    rw [h2] at heq
    exact Option.noConfusion heq
  | some q2 =>
    rw [h2] at heq
    have : (r.1, q2) = (d, q) := by injection heq
    have hd : r.1 = d := congrArg Prod.fst this
    have hq : q2 = q := congrArg Prod.snd this
    exact ⟨r, hr, hd, by rw [h2, hq]⟩

theorem hrOf_ne_nil {ts : List (Date × Option ℚ)} {a : Date}
    (hne : histRecent ts a ≠ [])
    (hall : ∀ p ∈ histRecent ts a, ∃ q : ℚ, p.2 = some q) :
    hrOf ts a ≠ [] := by
  obtain ⟨p, hp⟩ := List.exists_mem_of_ne_nil _ hne
  obtain ⟨q, hq⟩ := hall p hp
  have : (p.1, q) ∈ hrOf ts a := by
    unfold hrOf
    rw [List.mem_filterMap]
    exact ⟨p, hp, by rw [hq]; rfl⟩
  intro hcon
  rw [hcon] at this
  exact absurd this (List.not_mem_nil _)

/-- On a flat contiguous series ending at the as-of date, covering the
previous month start, with the elapsed days not exceeding the previous
month's length, both growth signals evaluate to 1 and the clamped,
multiplied blend is exactly 1. -/
theorem growthFactor_flat {start a : Date} {n : ℕ} {v : ℚ} {asm : Assumptions} {gf : ℚ}
    (hs : start.Valid) (hav : a.Valid)
    (hend : start.toOrdinal + (n : ℤ) - 1 = a.toOrdinal)
    (hstart : start.toOrdinal
      ≤ (⟨(prevMonthEnd a.year a.month).year, (prevMonthEnd a.year a.month).month, 1⟩
          : Date).toOrdinal)
    (helapsed : (a.day : ℤ)
      ≤ (daysInMonth (prevMonthEnd a.year a.month).year (prevMonthEnd a.year a.month).month : ℤ))
    (hm : assumption_effective_multiplier asm = 1)
    (hf : asm.growth_floor ≤ 1) (hc : 1 ≤ asm.growth_ceiling)
    (hg : growthFactor (parseSort (flatRows start n v)) a
        (vals (currentWindow (parseSort (flatRows start n v)) a)).sum asm = .ok gf) :
    gf = 1 := by
  obtain ⟨hm1, hm2, hd1, hd2⟩ := hav
  have hMa : a.toOrdinal = (⟨a.year, a.month, 1⟩ : Date).toOrdinal + a.day - 1 :=
    toOrdinal_day a.year a.month a.day
  have hpms := prevMonthStart_toOrdinal ⟨hm1, hm2, hd1, hd2⟩
  have h28 := daysInMonth_ge (prevMonthEnd a.year a.month).year
    (prevMonthEnd a.year a.month).month
  -- window shapes
  have eqrec : recent14Of (parseSort (flatRows start n v)) a
      = windowBetween (parseSort (flatRows start n v))
          (a.toOrdinal - 13) a.toOrdinal := rfl
  have eqpri : prior14Of (parseSort (flatRows start n v)) a
      = windowBetween (parseSort (flatRows start n v))
          (a.toOrdinal - 27) (a.toOrdinal - 14) := rfl
  have eqprev : prevWindowOf (parseSort (flatRows start n v)) a
      = windowBetween (parseSort (flatRows start n v))
          (⟨(prevMonthEnd a.year a.month).year, (prevMonthEnd a.year a.month).month, 1⟩
            : Date).toOrdinal
          ((⟨(prevMonthEnd a.year a.month).year, (prevMonthEnd a.year a.month).month, 1⟩
            : Date).toOrdinal
            + min (a.toOrdinal - (⟨a.year, a.month, 1⟩ : Date).toOrdinal + 1)
                (daysInMonth (prevMonthEnd a.year a.month).year
                  (prevMonthEnd a.year a.month).month : ℤ) - 1) := rfl
  have eqcur : currentWindow (parseSort (flatRows start n v)) a
      = windowBetween (parseSort (flatRows start n v))
          (⟨a.year, a.month, 1⟩ : Date).toOrdinal a.toOrdinal := rfl
  -- window statistics
  have hrec_len := (flat_window start hs n v (a.toOrdinal - 13) a.toOrdinal).1
  have hrec_sum := (flat_window start hs n v (a.toOrdinal - 13) a.toOrdinal).2
  have hpri_len := (flat_window start hs n v (a.toOrdinal - 27) (a.toOrdinal - 14)).1
  have hpri_sum := (flat_window start hs n v (a.toOrdinal - 27) (a.toOrdinal - 14)).2
  have hprev_len := (flat_window start hs n v
    (⟨(prevMonthEnd a.year a.month).year, (prevMonthEnd a.year a.month).month, 1⟩
      : Date).toOrdinal
    ((⟨(prevMonthEnd a.year a.month).year, (prevMonthEnd a.year a.month).month, 1⟩
      : Date).toOrdinal
      + min (a.toOrdinal - (⟨a.year, a.month, 1⟩ : Date).toOrdinal + 1)
          (daysInMonth (prevMonthEnd a.year a.month).year
            (prevMonthEnd a.year a.month).month : ℤ) - 1)).1
  have hprev_sum := (flat_window start hs n v
    (⟨(prevMonthEnd a.year a.month).year, (prevMonthEnd a.year a.month).month, 1⟩
      : Date).toOrdinal
    ((⟨(prevMonthEnd a.year a.month).year, (prevMonthEnd a.year a.month).month, 1⟩
      : Date).toOrdinal
      + min (a.toOrdinal - (⟨a.year, a.month, 1⟩ : Date).toOrdinal + 1)
          (daysInMonth (prevMonthEnd a.year a.month).year
            (prevMonthEnd a.year a.month).month : ℤ) - 1)).2
  have hcur_len := (flat_window start hs n v
    (⟨a.year, a.month, 1⟩ : Date).toOrdinal a.toOrdinal).1
  have hcur_sum := (flat_window start hs n v
    (⟨a.year, a.month, 1⟩ : Date).toOrdinal a.toOrdinal).2
  -- numeric lengths
  have hrecL : (windowBetween (parseSort (flatRows start n v))
      (a.toOrdinal - 13) a.toOrdinal).length = 14 := by omega
  have hpriL : (windowBetween (parseSort (flatRows start n v))
      (a.toOrdinal - 27) (a.toOrdinal - 14)).length = 14 := by omega
  have hprevL : (windowBetween (parseSort (flatRows start n v))
      (⟨(prevMonthEnd a.year a.month).year, (prevMonthEnd a.year a.month).month, 1⟩
        : Date).toOrdinal
      ((⟨(prevMonthEnd a.year a.month).year, (prevMonthEnd a.year a.month).month, 1⟩
        : Date).toOrdinal
        + min (a.toOrdinal - (⟨a.year, a.month, 1⟩ : Date).toOrdinal + 1)
            (daysInMonth (prevMonthEnd a.year a.month).year
              (prevMonthEnd a.year a.month).month : ℤ) - 1)).length = a.day := by omega
  have hcurL : (windowBetween (parseSort (flatRows start n v))
      (⟨a.year, a.month, 1⟩ : Date).toOrdinal a.toOrdinal).length = a.day := by omega
  -- mean of the two trailing windows
  have hMean : ∀ lo hi : ℤ, ∀ k : ℕ,
      (windowBetween (parseSort (flatRows start n v)) lo hi).length = k → 0 < k →
      (vals (windowBetween (parseSort (flatRows start n v)) lo hi)).sum
        / ((windowBetween (parseSort (flatRows start n v)) lo hi).length : ℚ) = v := by
    intro lo hi k hk hpos
    rw [(flat_window start hs n v lo hi).2, hk]
    have : ((k : ℚ)) ≠ 0 := by
      have : (0 : ℚ) < (k : ℚ) := by exact_mod_cast hpos
      exact ne_of_gt this
    rw [mul_div_assoc, div_self this, mul_one]
  -- recent-trend signal equals 1
  have hrg : recentGrowthOf (parseSort (flatRows start n v)) a = some 1 := by
    simp only [recentGrowthOf]
    rw [eqrec, eqpri]
    have hpne : windowBetween (parseSort (flatRows start n v))
        (a.toOrdinal - 27) (a.toOrdinal - 14) ≠ [] := by
      apply List.ne_nil_of_length_pos
      omega
    have hrne : windowBetween (parseSort (flatRows start n v))
        (a.toOrdinal - 13) a.toOrdinal ≠ [] := by
      apply List.ne_nil_of_length_pos
      omega
    rw [if_neg hpne]
    have hpm := hMean (a.toOrdinal - 27) (a.toOrdinal - 14) 14 hpriL (by norm_num)
    have hrm := hMean (a.toOrdinal - 13) a.toOrdinal 14 hrecL (by norm_num)
    rcases eq_or_ne v 0 with hv0 | hv0
    · rw [if_pos]
      rw [hpm, hv0]
    · rw [if_neg (by rw [hpm]; exact hv0), if_neg hrne, hrm, hpm, div_self hv0]
  -- month-over-month signal equals 1
  have hmg : momGrowthOf (parseSort (flatRows start n v)) a
      (vals (currentWindow (parseSort (flatRows start n v)) a)).sum = 1 := by
    simp only [momGrowthOf]
    rw [eqprev, eqcur]
    have hprevne : windowBetween (parseSort (flatRows start n v))
        (⟨(prevMonthEnd a.year a.month).year, (prevMonthEnd a.year a.month).month, 1⟩
          : Date).toOrdinal
        ((⟨(prevMonthEnd a.year a.month).year, (prevMonthEnd a.year a.month).month, 1⟩
          : Date).toOrdinal
          + min (a.toOrdinal - (⟨a.year, a.month, 1⟩ : Date).toOrdinal + 1)
              (daysInMonth (prevMonthEnd a.year a.month).year
                (prevMonthEnd a.year a.month).month : ℤ) - 1) ≠ [] := by
      apply List.ne_nil_of_length_pos
      omega
    rw [if_neg hprevne]
    rw [hprev_sum, hprevL, hcur_sum, hcurL]
    unfold safe_ratio
    split_ifs with h0
    · rfl
    · rw [div_self h0]
  -- signal list
  have hfa : factorsOf (parseSort (flatRows start n v)) a
      (vals (currentWindow (parseSort (flatRows start n v)) a)).sum asm
      = [(some 1, max asm.recent_weight 0), (some 1, max asm.mom_weight 0)] := by
    simp only [factorsOf]
    rw [hrg, hmg]
    rw [if_pos (by rw [eqpri, hpriL]; norm_num)]
    rw [if_pos (by
      rw [eqprev]
      apply List.ne_nil_of_length_pos
      omega)]
    rfl
  -- all-numeric checks hold
  have hA : ∀ lo hi : ℤ, allNum (windowBetween (parseSort (flatRows start n v)) lo hi)
      = true := by
    intro lo hi
    exact allNum_of_all_some fun p hp => flat_window_mem hp
  -- evaluate the growth-factor block
  simp only [growthFactor] at hg
  rw [eqrec, eqpri, eqprev] at hg
  simp only [hA, Bool.and_self, not_true, and_false, if_false] at hg
  rw [hfa] at hg
  simp only [List.map_cons, List.map_nil, List.sum_cons, List.sum_nil, List.all_cons,
    List.all_nil, Option.isSome_some, Bool.and_self, if_true, List.cons_ne_nil,
    if_false, one_mul, add_zero] at hg
  rcases eq_or_ne (max asm.recent_weight 0 + max asm.mom_weight 0) 0 with hsum | hsum
  · rw [if_pos hsum] at hg
    exact Except.noConfusion hg
  · rw [if_neg hsum] at hg
    injection hg with hg
    rw [← hg]
    simp only [Option.getD_some, one_mul]
    rw [hm, mul_one, div_self hsum]
    simp only [clampGF]
    rw [min_eq_right hc, max_eq_right hf]

/-- C3 (amended): for a flat series — one record per day, all equal to
`v ≥ 0` — over a contiguous range that ends at the as-of date and starts
no later than the previous month's first day, with `elapsed_days` (the
as-of day-of-month) not exceeding the previous month's length, any
successful projection under assumptions with `effective_multiplier = 1`
and `growth_floor ≤ 1 ≤ growth_ceiling` has `growth_factor = 1` and
`projected_total = v * month_days` (exactly, in the rational model). -/
theorem flat_series_growth_and_projection (start a : Date) (n : ℕ) (v : ℚ)
    (asm : Assumptions) (r : Projection)
    (hs : start.Valid) (hav : a.Valid)
    (hend : start.toOrdinal + (n : ℤ) - 1 = a.toOrdinal)
    (hstart : start.toOrdinal
      ≤ (⟨(prevMonthEnd a.year a.month).year, (prevMonthEnd a.year a.month).month, 1⟩
          : Date).toOrdinal)
    (helapsed : (a.day : ℤ)
      ≤ (daysInMonth (prevMonthEnd a.year a.month).year (prevMonthEnd a.year a.month).month : ℤ))
    (hv : 0 ≤ v)
    (hm : assumption_effective_multiplier asm = 1)
    (hf : asm.growth_floor ≤ 1) (hc : 1 ≤ asm.growth_ceiling)
    (h : compute_dynamic_month_projection (flatRows start n v) a asm = .ok (some r)) :
    r.growth_factor = 1 ∧ r.projected_total = v * (daysInMonth a.year a.month : ℚ) := by
  obtain ⟨hm1, hm2, hd1, hd2⟩ := hav
  obtain ⟨gf, hg, hgf, hmtd, hpt⟩ := compute_ok_some h
  rw [tsProj_flat hs hend] at hg hmtd hpt
  have hgf1 : gf = 1 := growthFactor_flat hs ⟨hm1, hm2, hd1, hd2⟩ hend hstart helapsed
    hm hf hc hg
  rw [hgf1] at hgf
  refine ⟨hgf, ?_⟩
  -- ordinal facts
  have hMa : a.toOrdinal = (⟨a.year, a.month, 1⟩ : Date).toOrdinal + a.day - 1 :=
    toOrdinal_day a.year a.month a.day
  have hpms := prevMonthStart_toOrdinal ⟨hm1, hm2, hd1, hd2⟩
  have h28 := daysInMonth_ge (prevMonthEnd a.year a.month).year
    (prevMonthEnd a.year a.month).month
  -- month-to-date sum
  have hcur_len := (flat_window start hs n v
    (⟨a.year, a.month, 1⟩ : Date).toOrdinal a.toOrdinal).1
  have hcur_sum := (flat_window start hs n v
    (⟨a.year, a.month, 1⟩ : Date).toOrdinal a.toOrdinal).2
  have hcurL : (windowBetween (parseSort (flatRows start n v))
      (⟨a.year, a.month, 1⟩ : Date).toOrdinal a.toOrdinal).length = a.day := by omega
  have eqcur : currentWindow (parseSort (flatRows start n v)) a
      = windowBetween (parseSort (flatRows start n v))
          (⟨a.year, a.month, 1⟩ : Date).toOrdinal a.toOrdinal := rfl
  have hmtdv : r.mtd_actual = v * (a.day : ℚ) := by
    rw [hmtd, eqcur, hcur_sum, hcurL]
  -- all baseline-window totals are v
  have hrv : ∀ p ∈ hrOf (parseSort (flatRows start n v)) a, p.2 = v := by
    intro p hp
    obtain ⟨d, q⟩ := p
    obtain ⟨rr, hrr, -, h2⟩ := hrOf_mem hp
    have hsome := (mem_parseSort_flat (mem_histRecent_sub hrr)).1
    rw [hsome] at h2
    injection h2 with h2
    exact h2.symm
  -- the baseline window is nonempty
  have hhist : histOf (parseSort (flatRows start n v)) a ≠ [] := by
    obtain ⟨d, hd, hod⟩ := dateList_mem_ordinal hs n
      (hstart)
      (by omega :
        (⟨(prevMonthEnd a.year a.month).year, (prevMonthEnd a.year a.month).month, 1⟩
          : Date).toOrdinal < start.toOrdinal + n)
    have hpmem : (d, some v) ∈ parseSort (flatRows start n v) := by
      rw [(parseSort_flat_perm start n v).mem_iff]
      exact List.mem_map_of_mem _ hd
    have : (d, some v) ∈ histOf (parseSort (flatRows start n v)) a := by
      unfold histOf
      rw [List.mem_filter]
      refine ⟨hpmem, ?_⟩
      simp only [decide_eq_true_eq]
      omega
    intro hcon
    rw [hcon] at this
    exact absurd this (List.not_mem_nil _)
  have hne : hrOf (parseSort (flatRows start n v)) a ≠ [] := by
    apply hrOf_ne_nil (histRecent_ne_nil hhist)
    intro p hp
    exact ⟨v, (mem_parseSort_flat (mem_histRecent_sub hp)).1⟩
  have hov : overallAvg (hrOf (parseSort (flatRows start n v)) a) = v := by
    simp only [overallAvg]
    rw [if_neg hne]
    exact const_list_mean hrv hne
  -- every predicted future day equals v
  have hpred : ∀ d ∈ futureDatesOf a,
      predFn (hrOf (parseSort (flatRows start n v)) a)
        (overallAvg (hrOf (parseSort (flatRows start n v)) a))
        asm.weekday_strength 1 d = v := by
    intro d hd
    unfold predFn
    rw [weekdayBaseline_flat hrv hov, mul_one]
    exact max_eq_right hv
  have hmap : ((futureDatesOf a).map
      (predFn (hrOf (parseSort (flatRows start n v)) a)
        (overallAvg (hrOf (parseSort (flatRows start n v)) a))
        asm.weekday_strength 1))
      = (futureDatesOf a).map fun _ => v :=
    List.map_congr_left hpred
  have hflen : (futureDatesOf a).length = daysInMonth a.year a.month - a.day := by
    simp [futureDatesOf]
  rw [hgf] at hpt
  rw [hpt, hmtdv, hmap, sum_map_const, hflen]
  have hsub : ((daysInMonth a.year a.month - a.day : ℕ) : ℚ)
      = (daysInMonth a.year a.month : ℚ) - (a.day : ℚ) := by
    push_cast [Nat.cast_sub hd2]
    ring
  rw [hsub]
  ring

set_option maxRecDepth 100000 in
theorem flat_series_growth_and_projection_witness :
    flatWitnessProjection.growth_factor = 1 ∧
    flatWitnessProjection.projected_total = 100 * ((daysInMonth 2024 2 : ℕ) : ℚ) := by
  have h := flat_series_growth_and_projection ⟨2024, 1, 1⟩ ⟨2024, 2, 14⟩ 45 100
    Assumptions.default flatWitnessProjection (by decide) (by decide) (by decide)
    (by decide) (by decide) (by norm_num) (by decide) (by decide) (by decide) (by rfl)
  exact ⟨h.1, h.2⟩

set_option maxRecDepth 400000 in
/-- C3 counterexample: the series recording every day of
2023-01-01 … 2023-03-29 at exactly 100 (flat history and flat current
month) with the default assumptions (`effective_multiplier = 1`,
`growth_floor = 0.5 ≤ 1 ≤ 1.8 = growth_ceiling`) yields
`growth_factor = 71/70 ≠ 1` and `projected_total ≠ 100 * month_days`:
at 2023-03-29 the month has 29 elapsed days but February 2023 only 28,
so the month-over-month ratio compares 29 current days against 28. -/
theorem flat_series_unequal_months_cex :
    flatCexSeries = flatRows ⟨2023, 1, 1⟩ 88 100 ∧
    compute_dynamic_month_projection flatCexSeries ⟨2023, 3, 29⟩ Assumptions.default
      = .ok (some flatCexProjection) ∧
    assumption_effective_multiplier Assumptions.default = 1 ∧
    Assumptions.default.growth_floor ≤ 1 ∧ 1 ≤ Assumptions.default.growth_ceiling ∧
    flatCexProjection.growth_factor = 71 / 70 ∧
    flatCexProjection.growth_factor ≠ 1 ∧
    flatCexProjection.month_days = 31 ∧
    flatCexProjection.projected_total ≠ 100 * 31 := by
  refine ⟨rfl, rfl, by decide, by decide, by decide, by decide, by decide, rfl, by decide⟩

end Netfly
